import Mathlib

/-!
Verification of the Entity-Component-System engine
(src/ECSEngine/src/ECS): a shallow embedding of the versioned entity-id
scheme (Common.h), the sparse-set component pool (Pool.h) and the registry
(Registry.h / Registry.cpp), together with proofs settling the spec claims.

Conventions of the embedding:
* machine integers are `Nat` (u32/u64) or `Int` (the C++ `int` sparse
  entries), with `% 2 ^ 32` written out where 32-bit truncation matters;
* a C++ operation whose execution can hit an assertion failure or an
  out-of-bounds vector access (undefined behavior) is embedded as an
  `Option`-returning function, `none` marking that execution;
* a sparse page (`int[PAGE_SIZE]`, always indexed by `index % PAGE_SIZE`)
  is a total function `Nat → Int`; the page table is a `List` of optional
  pages (`nullptr` = `none`);
* `std::set<Entity>` (ordered by the full id) is a sorted duplicate-free
  list of ids, `std::deque<u32>` a list with `head` = front,
  `std::unordered_map<u32, EntityID>` an association list;
* component values are specialized to `Nat` (the claims never depend on
  the payload type), component kinds are their small integer ids, and an
  `Entity` handle is its full 64-bit id (the registry back-pointer is kept
  only where a claim mentions it, as a `Bool` nullness flag);
* the group index (`m_groups` / `m_entityGroups`) is not modelled: no
  claim refers to groups, and the registry operations under study either
  ignore them or (in `Update`) modify them through a per-entity procedure
  whose effect is independent of everything the claims observe.
-/

namespace ECS

/-- Common.h constants. -/
def MAX_COMPONENTS : Nat := 32

/-- Common.h: maximum entity slot count. -/
def MAX_ENTITIES : Nat := 1000000

/-- Common.h: sparse page granularity. -/
def PAGE_SIZE : Nat := 4096

/-- EntityID is u64; values stay below 2^64 by construction. -/
abbrev EntityID := Nat

/-- Common.h: `GetEntityIndex(id) = id & 0xFFFFFFFF` (low 32 bits). -/
def GetEntityIndex (id : EntityID) : Nat := id % 2 ^ 32

/-- Common.h: `GetEntityVersion(id) = (id & 0xFFFFFFFF00000000) >> 32`. -/
def GetEntityVersion (id : EntityID) : Nat := (id / 2 ^ 32) % 2 ^ 32

/-- Common.h: `CreateEntityId(index, version) = ((u64)version << 32) | index`;
both arguments are u32-typed, hence the truncations. -/
def CreateEntityId (index version : Nat) : EntityID :=
  (version % 2 ^ 32) * 2 ^ 32 + index % 2 ^ 32

/-- Pool.h `m_sparse`: a paged sparse index. A page is an `int[PAGE_SIZE]`
modelled as a total function on offsets; `none` is a null page pointer. -/
abbrev SparsePages := List (Option (Nat → Int))

/-- Read `m_sparse[index / PAGE_SIZE][index % PAGE_SIZE]`; `none` when the
page is out of range or null (the C++ reads guard this or it is UB). -/
def sparseRead (sparse : SparsePages) (index : Nat) : Option Int :=
  match sparse.get? (index / PAGE_SIZE) with
  | some (some pg) => some (pg (index % PAGE_SIZE))
  | _ => none

/-- Write `m_sparse[index / PAGE_SIZE][index % PAGE_SIZE] = v`; `none` when
the page is out of range or null (an out-of-bounds write, UB in C++). -/
def sparseWrite (sparse : SparsePages) (index : Nat) (v : Int) :
    Option SparsePages :=
  match sparse.get? (index / PAGE_SIZE) with
  | some (some pg) =>
      some (sparse.set (index / PAGE_SIZE)
        (some (fun o => if o = index % PAGE_SIZE then v else pg o)))
  | _ => none

/-- Pool.h: the sparse-set pool. `m_data` is the packed component array,
`m_packed` the parallel owning-entity array, `m_sparse` the paged index. -/
structure Pool (α : Type) where
  m_data : List α
  m_packed : List EntityID
  m_sparse : SparsePages

namespace Pool

/-- Pool.h constructor: empty packed arrays, `MAX_ENTITIES / PAGE_SIZE + 1`
null page pointers (the `reserve` calls do not affect contents). -/
def new : Pool α :=
  ⟨[], [], List.replicate (MAX_ENTITIES / PAGE_SIZE + 1) none⟩

/-- Pool.h `Has`: false if the slot's page is out of range or null,
otherwise whether the sparse entry differs from -1. -/
def Has (p : Pool α) (entityId : EntityID) : Bool :=
  match sparseRead p.m_sparse (GetEntityIndex entityId) with
  | some v => v != -1
  | none => false

/-- Pool.h `Add`: if the page index is past the page table, assert
`index < MAX_ENTITIES` (failure = `none`, the hard abort) and resize the
table with null pages; allocate the page filled with -1 if null; push the
value and the id onto the packed arrays and point the sparse entry at the
new last position. -/
def Add (p : Pool α) (entityId : EntityID) (object : α) : Option (Pool α) := do
  let index := GetEntityIndex entityId
  let page := index / PAGE_SIZE
  let sparse0 ←
    if p.m_sparse.length ≤ page then
      if index < MAX_ENTITIES then
        some (p.m_sparse ++ List.replicate (page + 1 - p.m_sparse.length) none)
      else none
    else some p.m_sparse
  let sparse1 :=
    match sparse0.get? page with
    | some none => sparse0.set page (some (fun _ => (-1 : Int)))
    | _ => sparse0
  let data := p.m_data ++ [object]
  let packed := p.m_packed ++ [entityId]
  let sparse2 ← sparseWrite sparse1 index ((data.length : Int) - 1)
  some ⟨data, packed, sparse2⟩

/-- Pool.h `Remove`: early return (no-op) when absent; otherwise swap the
last packed element into the removed position (when distinct), repoint its
sparse entry, pop the packed arrays and clear the removed sparse entry. -/
def Remove (p : Pool α) (entityId : EntityID) : Option (Pool α) :=
  if p.Has entityId = false then some p
  else do
    let index := GetEntityIndex entityId
    let indexToRemove ← sparseRead p.m_sparse index
    let indexLast : Int := (p.m_data.length : Int) - 1
    let moved ←
      if indexToRemove ≠ indexLast then do
        let lastEntityId ← p.m_packed.get? indexLast.toNat
        let movedVal ← p.m_data.get? indexLast.toNat
        let lastEntityIndex := GetEntityIndex lastEntityId
        let data := p.m_data.set indexToRemove.toNat movedVal
        let packed := p.m_packed.set indexToRemove.toNat lastEntityId
        let sparse ← sparseWrite p.m_sparse lastEntityIndex indexToRemove
        some (data, packed, sparse)
      else some (p.m_data, p.m_packed, p.m_sparse)
    let sparse2 ← sparseWrite moved.2.2 index (-1)
    some ⟨moved.1.dropLast, moved.2.1.dropLast, sparse2⟩

/-- Pool.h `Get`: `m_data[m_sparse[page][offset]]` with no presence check;
the defined executions are exactly those where the sparse entry exists and
is a valid packed position (otherwise UB, embedded as `none`). -/
def Get (p : Pool α) (entityId : EntityID) : Option α := do
  let v ← sparseRead p.m_sparse (GetEntityIndex entityId)
  if v < 0 then none else p.m_data.get? v.toNat

end Pool

/-- The per-entity body of Registry.h `View` for two component kinds: the
fold `hasAll = p1.Has && p2.Has`, then the callback invocation record
`(entityId, p1.Get, p2.Get)` (the `Get`s are defined whenever `hasAll`
holds — anything else would be UB in the source). -/
def viewFn (p1 p2 : Pool Nat) (id : EntityID) : Option (EntityID × Nat × Nat) :=
  if p1.Has id && p2.Has id then
    match p1.Get id, p2.Get id with
    | some v1, some v2 => some (id, v1, v2)
    | _, _ => none
  else none

/-- Registry.h `Signature`: a `std::bitset<MAX_COMPONENTS>` modelled as a
bitmask; component ids stay below `MAX_COMPONENTS` (the lazy first-use
numbering of Component.h, per the spec's fixed upper bound on kinds). -/
abbrev Signature := Nat

/-- bitset `sig.set(c)`. -/
def sigSet (sig : Signature) (c : Nat) : Signature := sig ||| 2 ^ c

/-- bitset `sig.set(c, false)`. -/
def sigClear (sig : Signature) (c : Nat) : Signature :=
  if sig.testBit c then sig - 2 ^ c else sig

/-- bitset `sig.test(c)`. -/
def sigTest (sig : Signature) (c : Nat) : Bool := sig.testBit c

/-- System.h: a system's required signature and its cached entity list
(the `std::type_index` key of `m_systems` is irrelevant to every claim). -/
structure SystemData where
  m_componentSignature : Signature
  m_entities : List EntityID
deriving DecidableEq

/-- Insertion into a `std::set<Entity>` (ordered by the full id, see
`Entity::operator<`): keep the list sorted and duplicate-free. -/
def setInsert (x : Nat) : List Nat → List Nat
  | [] => [x]
  | y :: ys => if x < y then x :: y :: ys
               else if x = y then y :: ys
               else y :: setInsert x ys

/-- Lookup in a `std::unordered_map<u32, EntityID>` (`find`). -/
def mapFind (m : List (Nat × EntityID)) (k : Nat) : Option EntityID :=
  match m.find? (fun p => p.1 == k) with
  | some p => some p.2
  | none => none

/-- Store through `operator[]` of `std::unordered_map<u32, EntityID>`:
replace the value if the key exists, insert otherwise (bucket order is
meaningless in the source's hash map, so the entry position carries no
information). -/
def mapInsert : List (Nat × EntityID) → Nat → EntityID → List (Nat × EntityID)
  | [], k, v => [(k, v)]
  | p :: m, k, v => if p.1 = k then (k, v) :: m else p :: mapInsert m k v

/-- Erase from a `std::unordered_map<u32, EntityID>`. -/
def mapErase (m : List (Nat × EntityID)) (k : Nat) : List (Nat × EntityID) :=
  m.filter (fun p => p.1 != k)

/-- Entity.h: a handle is its full id plus the owning-registry pointer;
only nullness of that pointer is ever observable in the claims. -/
structure EntityHandle where
  m_id : EntityID
  hasRegistry : Bool
deriving DecidableEq

/-- Entity.h `operator==`: compares only the ids. -/
def entityEq (a b : EntityHandle) : Bool := a.m_id == b.m_id

/-- Registry.h: the registry state. Component pools are type-erased in the
source (`std::vector<std::unique_ptr<IPool>>`, entry null until first use);
here every pool stores `Nat` payloads and the vector index is the component
id. Tag names enter the registry only as their `HashString` u32 value, so
tag arguments are modelled as those hashes. -/
structure Registry where
  m_numEntities : Nat
  m_entitiesToBeAdded : List EntityID
  m_entitiesToBeKilled : List EntityID
  m_componentPools : List (Option (Pool Nat))
  m_entityComponentSignatures : List Signature
  m_systems : List SystemData
  m_freeIndices : List Nat
  m_entityVersions : List Nat
  m_entityToTag : List Nat
  m_tagToEntity : List (Nat × EntityID)

namespace Registry

/-- Default-constructed registry. -/
def new : Registry := ⟨0, [], [], [], [], [], [], [], [], []⟩

/-- Registry.cpp `IsValid`: false when the slot index is past the version
table, else compare the stored version with the handle's generation. -/
def IsValid (r : Registry) (e : EntityID) : Bool :=
  match r.m_entityVersions.get? (GetEntityIndex e) with
  | none => false
  | some ver => ver == GetEntityVersion e

/-- Registry.cpp `CreateEntity`: pop the free-list front when available,
otherwise take a fresh index (`m_numEntities++`, stored into a u32) and
grow the version table (and, nested inside that branch, the signature
table); build the id from the slot's current version and enqueue it into
the pending-create set. The version read `m_entityVersions[index]` is in
range on every registry-issued free index; the out-of-range read (UB) is
embedded as defaulting, never exercised. -/
def CreateEntity (r : Registry) : EntityID × Registry :=
  let step :=
    match r.m_freeIndices with
    | [] =>
        let index := r.m_numEntities % 2 ^ 32
        let r1 := { r with m_numEntities := r.m_numEntities + 1 }
        let r2 :=
          if r1.m_entityVersions.length ≤ index then
            { r1 with
              m_entityVersions :=
                r1.m_entityVersions ++
                  List.replicate (index + 1 - r1.m_entityVersions.length) 0,
              m_entityComponentSignatures :=
                if r1.m_entityComponentSignatures.length ≤ index then
                  r1.m_entityComponentSignatures ++
                    List.replicate
                      (index + 1 - r1.m_entityComponentSignatures.length) 0
                else r1.m_entityComponentSignatures }
          else r1
        (index, r2)
    | i :: rest => (i, { r with m_freeIndices := rest })
  let index := step.1
  let r2 := step.2
  let version := r2.m_entityVersions.getD index 0
  let id := CreateEntityId index version
  (id, { r2 with m_entitiesToBeAdded := setInsert id r2.m_entitiesToBeAdded })

/-- Registry.cpp `KillEntity`: no-op on an invalid handle, otherwise
enqueue into the pending-destroy set. -/
def KillEntity (r : Registry) (e : EntityID) : Registry :=
  if r.IsValid e = false then r
  else { r with m_entitiesToBeKilled := setInsert e r.m_entitiesToBeKilled }

/-- Registry.h `AddComponent`: grow the pool vector on demand, create the
pool on first use, `Pool::Add` the value (assert abort = `none`), then
`m_entityComponentSignatures[entityId].set(componentId)` — note the source
indexes the signature vector by the FULL 64-bit id here; the out-of-bounds
write (UB) this causes for `entityId ≥ size` is embedded as `none`. -/
def AddComponent (r : Registry) (cid : Nat) (e : EntityID) (v : Nat) :
    Option Registry := do
  let entityId := e
  let pools :=
    if r.m_componentPools.length ≤ cid then
      r.m_componentPools ++
        List.replicate (cid + 1 - r.m_componentPools.length) none
    else r.m_componentPools
  let pool :=
    match pools.get? cid with
    | some (some p) => p
    | _ => Pool.new
  let pool1 ← pool.Add entityId v
  let pools1 := pools.set cid (some pool1)
  match r.m_entityComponentSignatures.get? entityId with
  | some sig =>
      some { r with
        m_componentPools := pools1,
        m_entityComponentSignatures :=
          r.m_entityComponentSignatures.set entityId (sigSet sig cid) }
  | none => none

/-- Registry.h `RemoveComponent`:
`m_componentPools[componentId]->RemoveEntityFromPool(entityId)` with no
bounds or null check (UB when absent, embedded as `none`), then
`m_entityComponentSignatures[entityId].set(componentId, false)` — again
indexed by the full id, `none` on the out-of-bounds write. -/
def RemoveComponent (r : Registry) (cid : Nat) (e : EntityID) :
    Option Registry := do
  let pool ←
    match r.m_componentPools.get? cid with
    | some (some p) => some p
    | _ => none
  let pool1 ← pool.Remove e
  let pools1 := r.m_componentPools.set cid (some pool1)
  match r.m_entityComponentSignatures.get? e with
  | some sig =>
      some { r with
        m_componentPools := pools1,
        m_entityComponentSignatures :=
          r.m_entityComponentSignatures.set e (sigClear sig cid) }
  | none => none

/-- Registry.h `HasComponent`:
`m_entityComponentSignatures[entityId].test(componentId)`, indexed by the
full id (out-of-bounds read = UB = `none`). -/
def HasComponent (r : Registry) (cid : Nat) (e : EntityID) : Option Bool :=
  match r.m_entityComponentSignatures.get? e with
  | some sig => some (sigTest sig cid)
  | none => none

/-- Registry.h `GetComponent`: fetch the pool (no check: a missing or null
pool is UB) and `Pool::Get`. -/
def GetComponent (r : Registry) (cid : Nat) (e : EntityID) : Option Nat :=
  match r.m_componentPools.get? cid with
  | some (some p) => p.Get e
  | _ => none

/-- Registry.cpp `AddEntityToSystems`: read the slot's signature (indexed
by `GetEntityIndex`, out-of-range = UB = `none`) and append the entity to
every system whose required signature is contained in it.
`System::AddEntityToSystem` has no definition under src/ (System.cpp is
absent); its body is modelled from the spec: "adds the entity to the
matching systems' cached entity lists". -/
def AddEntityToSystems (r : Registry) (e : EntityID) : Option Registry :=
  match r.m_entityComponentSignatures.get? (GetEntityIndex e) with
  | none => none
  | some esig =>
      some { r with
        m_systems := r.m_systems.map (fun sys =>
          if (esig &&& sys.m_componentSignature) = sys.m_componentSignature
          then { sys with m_entities := sys.m_entities ++ [e] }
          else sys) }

/-- Registry.cpp `RemoveEntityFromSystems`: calls
`System::RemoveEntityFromSystem` on every system. That method's definition
is absent from src/ (System.cpp); modelled from the spec: "on destruction
the entity is removed from every system's list unconditionally". -/
def RemoveEntityFromSystems (r : Registry) (e : EntityID) : Registry :=
  { r with
    m_systems := r.m_systems.map (fun sys =>
      { sys with m_entities := sys.m_entities.filter (fun x => x ≠ e) }) }

/-- Registry.cpp `RemoveEntityTag`: early return when the slot is past the
tag table; otherwise, when the recorded hash is nonzero, erase the
hash→entity entry and zero the slot's tag hash. -/
def RemoveEntityTag (r : Registry) (e : EntityID) : Registry :=
  let index := GetEntityIndex e
  match r.m_entityToTag.get? index with
  | none => r
  | some hash =>
      if hash ≠ 0 then
        { r with
          m_tagToEntity := mapErase r.m_tagToEntity hash,
          m_entityToTag := r.m_entityToTag.set index 0 }
      else r

/-- The per-entity body of the pending-destroy flush in Registry.cpp
`Update`: skip invalid entries; otherwise remove from systems, reset the
slot's signature (out-of-range = UB = `none`), remove from every non-null
pool, clear the tag, bump the slot's u32 version and push the slot onto
the free-list back. (The group purge `RemoveEntityGroup` acts only on the
unmodelled group index.) -/
def processKill (r : Registry) (e : EntityID) : Option Registry := do
  if r.IsValid e = false then some r
  else
    let index := GetEntityIndex e
    let r1 := r.RemoveEntityFromSystems e
    let sigs ←
      match r1.m_entityComponentSignatures.get? index with
      | some _ => some (r1.m_entityComponentSignatures.set index 0)
      | none => none
    let pools ← r1.m_componentPools.mapM (fun op =>
      match op with
      | none => some none
      | some p => (p.Remove e).map some)
    let r2 := Registry.RemoveEntityTag
      { r1 with m_entityComponentSignatures := sigs, m_componentPools := pools }
      e
    let ver ← r2.m_entityVersions.get? index
    some { r2 with
      m_entityVersions := r2.m_entityVersions.set index ((ver + 1) % 2 ^ 32),
      m_freeIndices := r2.m_freeIndices ++ [index] }

/-- Registry.cpp `Update`: flush the pending-create set through
`AddEntityToSystems` and clear it, then flush the pending-destroy set
(skipping now-invalid entries) and clear it. Both sets iterate in
ascending id order (`std::set`). -/
def Update (r : Registry) : Option Registry := do
  let r1 ← r.m_entitiesToBeAdded.foldlM AddEntityToSystems r
  let r2 := { r1 with m_entitiesToBeAdded := [] }
  let r3 ← r2.m_entitiesToBeKilled.foldlM processKill r2
  some { r3 with m_entitiesToBeKilled := [] }

/-- Registry.cpp `TagEntity`: grow the slot→hash table on demand, store
the hash at the slot, and map the hash to the full id (note: the previous
hash's forward entry is not erased). -/
def TagEntity (r : Registry) (e : EntityID) (hash : Nat) : Registry :=
  let index := GetEntityIndex e
  let tags :=
    if r.m_entityToTag.length ≤ index then
      r.m_entityToTag ++ List.replicate (index + 1 - r.m_entityToTag.length) 0
    else r.m_entityToTag
  { r with
    m_entityToTag := tags.set index hash,
    m_tagToEntity := mapInsert r.m_tagToEntity hash e }

/-- Registry.cpp `EntityHasTag`: false when the slot is past the tag
table, else compare the stored hash. -/
def EntityHasTag (r : Registry) (e : EntityID) (hash : Nat) : Bool :=
  match r.m_entityToTag.get? (GetEntityIndex e) with
  | none => false
  | some h => h == hash

/-- Registry.cpp `GetEntityByTag`: the mapped entity with the registry
back-pointer, or `Entity(0, nullptr)` when the hash is unmapped. -/
def GetEntityByTag (r : Registry) (hash : Nat) : EntityHandle :=
  match mapFind r.m_tagToEntity hash with
  | some id => ⟨id, true⟩
  | none => ⟨0, false⟩

/-- Registry.h `GetPool`: null when the component id is past the pool
vector or the pool was never created. -/
def GetPool (r : Registry) (cid : Nat) : Option (Pool Nat) :=
  match r.m_componentPools.get? cid with
  | some (some p) => some p
  | _ => none

/-- Registry.h `View` specialized to two component kinds, reified as the
list of callback invocations `(entityId, leader value, second value)`: an
empty list when either pool is missing; otherwise iterate the leader
pool's packed entity list, keep the ids on which every pool's `Has`
holds, and call back with each pool's `Get`. (On a kept id both `Get`s
are defined — UB otherwise — so the inner matches never drop a match.) -/
def ViewList (r : Registry) (c1 c2 : Nat) : List (EntityID × Nat × Nat) :=
  match r.GetPool c1, r.GetPool c2 with
  | some p1, some p2 => p1.m_packed.filterMap (viewFn p1 p2)
  | _, _ => []

end Registry

/-! ### Further definitions: pool invariant, operation sequences,
view reification helpers, and the concrete states used by the claim
theorems and witnesses. -/

set_option maxRecDepth 100000

namespace Pool

/-- The packing invariant of a sparse-set pool: the two dense arrays are
index-aligned, the page table has its constructed size, every dense
position is pointed back at by the sparse entry of its owner's slot, and
every non-(-1) sparse entry addresses a dense position owning that slot. -/
structure WF (p : Pool α) : Prop where
  len_eq : p.m_data.length = p.m_packed.length
  sparse_len : p.m_sparse.length = MAX_ENTITIES / PAGE_SIZE + 1
  packed_sparse : ∀ pos id, p.m_packed.get? pos = some id →
      sparseRead p.m_sparse (GetEntityIndex id) = some (pos : Int)
  sparse_packed : ∀ index v, sparseRead p.m_sparse index = some v → v ≠ -1 →
      ∃ id, 0 ≤ v ∧ p.m_packed.get? v.toNat = some id ∧ GetEntityIndex id = index

/-- The id-level round trip of the packing claim: the dense entity entry's
slot resolves through the sparse index to a dense position holding that
same id (`dense_entity[sparse[slot(id)]] == id`). -/
def entryOK (p : Pool α) (id : EntityID) : Bool :=
  match sparseRead p.m_sparse (GetEntityIndex id) with
  | some v => decide (0 ≤ v) && (p.m_packed.get? v.toNat == some id)
  | none => false

/-- Every live dense entry satisfies the round trip. -/
def RoundTrip (p : Pool α) : Prop := ∀ id ∈ p.m_packed, p.entryOK id = true

end Pool

/-- One `Pool` mutation of the packing claim's alphabet. -/
inductive PoolOp (α : Type) where
  | add (id : EntityID) (v : α)
  | remove (id : EntityID)

/-- Execute one pool operation. -/
def runOp (p : Pool α) : PoolOp α → Option (Pool α)
  | .add id v => p.Add id v
  | .remove id => p.Remove id

/-- Execute a sequence of pool operations left to right, starting from a
given pool; `none` when an operation aborts. -/
def runOps (p : Pool α) (ops : List (PoolOp α)) : Option (Pool α) :=
  ops.foldlM runOp p

/-- Non-aborting operation sequences in which `Add` is only invoked on ids
the pool does not currently `Has` (the discipline under which adds cannot
create duplicate or slot-aliased dense entries; `Set` is the source's
replace-or-insert entry point for the other case). -/
inductive LegalSteps : Pool α → List (PoolOp α) → Pool α → Prop where
  | nil (p : Pool α) : LegalSteps p [] p
  | add {p p1 p2 : Pool α} {id : EntityID} {v : α} {ops : List (PoolOp α)} :
      p.Has id = false → p.Add id v = some p1 → LegalSteps p1 ops p2 →
      LegalSteps p (.add id v :: ops) p2
  | remove {p p1 p2 : Pool α} {id : EntityID} {ops : List (PoolOp α)} :
      p.Remove id = some p1 → LegalSteps p1 ops p2 →
      LegalSteps p (.remove id :: ops) p2

/-- Two pools of a registry agree on the owner of every shared slot
(true of every pair of pools the registry builds, since components are
attached through the same handle id). -/
def PoolsConsistent (p1 p2 : Pool Nat) : Prop :=
  ∀ id1 ∈ p1.m_packed, ∀ id2 ∈ p2.m_packed,
    GetEntityIndex id1 = GetEntityIndex id2 → id1 = id2

/-- Operation sequence refuting the unrestricted packing claim: two adds
whose ids share slot 0 (generation 0 and generation 1). -/
def cexOps : List (PoolOp Nat) := [.add 0 10, .add (2 ^ 32) 20]

/-- The pool produced by `cexOps`. -/
def cexPool : Pool Nat := (runOps Pool.new cexOps).getD Pool.new

/-- Intermediate pools of the packing-invariant witness run. -/
def witPool1 : Pool Nat := (Pool.new.Add 3 10).getD Pool.new

/-- Second intermediate pool of the witness run. -/
def witPool2 : Pool Nat := (witPool1.Add 5 20).getD Pool.new

/-- Final pool of the witness run. -/
def witPool3 : Pool Nat := (witPool2.Remove 3).getD Pool.new

/-- Registry reached from a fresh registry by creating one entity and
calling `AddComponent` twice for kind 0 and once for kind 1 on it --
the double add duplicates the entity in kind 0's dense arrays. -/
def rViewDup : Registry :=
  (((Registry.new.CreateEntity).2.AddComponent 0 0 10).bind
      (fun r => r.AddComponent 0 0 11) |>.bind
      (fun r => r.AddComponent 1 0 20)).getD Registry.new

/-- Pool holding value 10 for the entity with id 0. -/
def vwPoolA : Pool Nat := (Pool.new.Add 0 10).getD Pool.new

/-- Pool holding value 20 for the entity with id 0. -/
def vwPoolB : Pool Nat := (Pool.new.Add 0 20).getD Pool.new

/-- Registry whose pools for kinds 0 and 1 each hold entity 0 once. -/
def rViewW : Registry :=
  { Registry.new with m_componentPools := [some vwPoolA, some vwPoolB] }

/-- A quiescent registry whose single slot 0 has reached the maximum u32
generation 4294967295 and sits on the free-list (reachable after 2^32 - 1
kill/synchronize cycles of that slot). -/
def rWrap : Registry := ⟨1, [], [], [], [0], [], [0], [2 ^ 32 - 1], [], []⟩

/-- A quiescent registry with one free slot of generation 5 whose kind-0
component pool still holds an entry on that slot (as after the spec's
create / add-component / kill / synchronize ... scenario mid-flight). -/
def rGenPool : Registry := ⟨1, [], [], [some vwPoolA], [0], [], [0], [5], [], []⟩

/-- A fresh registry after one `CreateEntity` (slot 0, generation 0,
still pending). -/
def rOne : Registry := (Registry.new.CreateEntity).2

/-- `rOne` after `AddComponent` of kind 0 with value 42 on entity 0. -/
def rAfterAdd : Registry := (rOne.AddComponent 0 0 42).getD Registry.new

/-- `rAfterAdd` after `RemoveComponent` of kind 0 on entity 0. -/
def rAfterRemove : Registry := (rAfterAdd.RemoveComponent 0 0).getD Registry.new

/-- `rOne` after killing entity 0 and synchronizing: slot 0 is on the
free-list with generation 1. -/
def rRecycledBase : Registry := ((rOne.KillEntity 0).Update).getD Registry.new

/-- The recycled handle issued next: slot 0, generation 1, id 2^32. -/
def eRecycled : EntityID := (rRecycledBase.CreateEntity).1

/-- The registry that issued `eRecycled`. -/
def rRecycled : Registry := (rRecycledBase.CreateEntity).2

/-- `rOne` after tagging entity 0 with hash 1 and then re-tagging with
hash 2 (`HashString` values stand in for the tag strings). -/
def rTagged : Registry := (rOne.TagEntity 0 1).TagEntity 0 2

/-- `rWrap` after creating its entity (generation 2^32 - 1), killing it
and synchronizing: the slot's u32 generation counter has wrapped to 0. -/
def rWrapSynced : Registry :=
  (((rWrap.CreateEntity).2.KillEntity (rWrap.CreateEntity).1).Update).getD
    Registry.new

/-! ### Theorems -/

/-! ### Arithmetic and list helper lemmas -/

theorem get?_replicate {α : Type} (a : α) (n i : Nat) :
    (List.replicate n a).get? i = if i < n then some a else none := by
  induction n generalizing i with
  | zero => simp
  | succ n ih =>
      cases i with
      | zero => simp [List.replicate]
      | succ i =>
          simp only [List.replicate, List.get?]
          rw [ih]
          by_cases h : i < n <;> simp [h, Nat.succ_lt_succ_iff]

theorem index_eq_of_page_offset {i j : Nat}
    (hp : i / PAGE_SIZE = j / PAGE_SIZE) (ho : i % PAGE_SIZE = j % PAGE_SIZE) :
    i = j := by
  have hi := Nat.div_add_mod i PAGE_SIZE
  have hj := Nat.div_add_mod j PAGE_SIZE
  rw [hp, ho] at hi
  omega

/-! ### Sparse page table lemmas -/

theorem sparseWrite_length {s s' : SparsePages} {i : Nat} {v : Int}
    (h : sparseWrite s i v = some s') : s'.length = s.length := by
  unfold sparseWrite at h
  cases hg : s.get? (i / PAGE_SIZE) with
  | none => rw [hg] at h; exact absurd h (by simp)
  | some pg =>
      cases pg with
      | none => rw [hg] at h; exact absurd h (by simp)
      | some f => rw [hg] at h; simp at h; subst h; simp

theorem sparseRead_write_self {s s' : SparsePages} {i : Nat} {v : Int}
    (h : sparseWrite s i v = some s') : sparseRead s' i = some v := by
  unfold sparseWrite at h
  cases hg : s.get? (i / PAGE_SIZE) with
  | none => rw [hg] at h; exact absurd h (by simp)
  | some pg =>
      cases pg with
      | none => rw [hg] at h; exact absurd h (by simp)
      | some f =>
          rw [hg] at h; simp at h; subst h
          have hlt : i / PAGE_SIZE < s.length := by
            by_contra hge
            rw [List.get?_len_le (Nat.le_of_not_lt hge)] at hg
            exact absurd hg (by simp)
          unfold sparseRead
          rw [List.get?_set_eq, hg]
          simp

theorem sparseRead_write_other {s s' : SparsePages} {i j : Nat} {v : Int}
    (h : sparseWrite s i v = some s') (hne : j ≠ i) :
    sparseRead s' j = sparseRead s j := by
  unfold sparseWrite at h
  cases hg : s.get? (i / PAGE_SIZE) with
  | none => rw [hg] at h; exact absurd h (by simp)
  | some pg =>
      cases pg with
      | none => rw [hg] at h; exact absurd h (by simp)
      | some f =>
          rw [hg] at h; simp at h; subst h
          by_cases hpage : j / PAGE_SIZE = i / PAGE_SIZE
          · have hoff : j % PAGE_SIZE ≠ i % PAGE_SIZE := by
              intro ho
              exact hne (index_eq_of_page_offset hpage ho)
            unfold sparseRead
            rw [hpage, List.get?_set_eq, hg]
            simp [hoff]
          · unfold sparseRead
            rw [List.get?_set_ne _ _ (fun hh => hpage hh.symm)]

theorem sparseWrite_some_of_read {s : SparsePages} {i : Nat} {w : Int}
    (h : sparseRead s i = some w) (v : Int) :
    ∃ s', sparseWrite s i v = some s' := by
  unfold sparseRead at h
  unfold sparseWrite
  cases hg : s.get? (i / PAGE_SIZE) with
  | none => rw [hg] at h; exact absurd h (by simp)
  | some pg =>
      cases pg with
      | none => rw [hg] at h; exact absurd h (by simp)
      | some f => exact ⟨_, rfl⟩

/-! ### Pool well-formedness (the packed sparse-set invariant) -/

namespace Pool


theorem WF_new : (Pool.new : Pool α).WF := by
  constructor
  · rfl
  · simp [Pool.new]
  · intro pos id h
    simp [Pool.new] at h
  · intro index v h
    unfold sparseRead Pool.new at h
    rw [get?_replicate] at h
    by_cases hlt : index / PAGE_SIZE < MAX_ENTITIES / PAGE_SIZE + 1 <;>
      simp [hlt] at h

/-- Pool.h `Remove` is a no-op on an absent id (the early return). -/
theorem Remove_absent {p : Pool α} {id : EntityID} (h : p.Has id = false) :
    p.Remove id = some p := by
  unfold Remove
  rw [h]
  simp

theorem Has_false_iff {p : Pool α} {id : EntityID} :
    p.Has id = false ↔
      (sparseRead p.m_sparse (GetEntityIndex id) = none ∨
       sparseRead p.m_sparse (GetEntityIndex id) = some (-1)) := by
  unfold Has
  cases h : sparseRead p.m_sparse (GetEntityIndex id) with
  | none => simp
  | some v => simp [bne]

theorem Has_true_iff {p : Pool α} {id : EntityID} :
    p.Has id = true ↔
      ∃ v, sparseRead p.m_sparse (GetEntityIndex id) = some v ∧ v ≠ -1 := by
  unfold Has
  cases h : sparseRead p.m_sparse (GetEntityIndex id) with
  | none => simp
  | some v => simp [bne_iff_ne]

/-- A pool satisfying the invariant `Has` an id exactly when some dense
entry owns the id's slot. -/
theorem WF.has_iff {p : Pool α} (hw : p.WF) {id : EntityID} :
    p.Has id = true ↔
      ∃ pos id0, p.m_packed.get? pos = some id0 ∧
        GetEntityIndex id0 = GetEntityIndex id := by
  rw [Has_true_iff]
  constructor
  · rintro ⟨v, hv, hne⟩
    obtain ⟨id0, _, hget, hidx⟩ := hw.sparse_packed _ _ hv hne
    exact ⟨v.toNat, id0, hget, hidx⟩
  · rintro ⟨pos, id0, hget, hidx⟩
    have := hw.packed_sparse _ _ hget
    rw [hidx] at this
    refine ⟨(pos : Int), this, ?_⟩
    intro hh
    omega

/-- Entries reachable through the packed array `Has` their id. -/
theorem WF.has_of_mem {p : Pool α} (hw : p.WF) {id : EntityID}
    (h : id ∈ p.m_packed) : p.Has id = true := by
  obtain ⟨pos, hget⟩ := List.mem_iff_get?.mp h
  exact hw.has_iff.mpr ⟨pos, id, hget, rfl⟩

/-- Under the invariant, `Get` on a packed entry returns its value. -/
theorem WF.get_mem {p : Pool α} (hw : p.WF) {pos : Nat} {id : EntityID}
    (hget : p.m_packed.get? pos = some id) :
    ∃ w, p.m_data.get? pos = some w ∧ p.Get id = some w := by
  have hpos : pos < p.m_packed.length := by
    rcases List.get?_eq_some.mp hget with ⟨hlt, _⟩
    exact hlt
  have hdata : pos < p.m_data.length := by rw [hw.len_eq]; exact hpos
  obtain ⟨w, hw'⟩ : ∃ w, p.m_data.get? pos = some w := by
    cases hd : p.m_data.get? pos with
    | none => rw [List.get?_eq_none] at hd; omega
    | some w => exact ⟨w, rfl⟩
  refine ⟨w, hw', ?_⟩
  unfold Get
  rw [hw.packed_sparse _ _ hget]
  simp [← List.get?_eq_getElem?, hw']

/-- Under the invariant the packed entity array has no duplicates (each
slot owns at most one dense position). -/
theorem WF.packed_nodup {p : Pool α} (hw : p.WF) : p.m_packed.Nodup := by
  rw [List.nodup_iff_injective_get]
  intro a b hab
  have ha := hw.packed_sparse a.1 _ (List.get?_eq_some.mpr ⟨a.2, rfl⟩)
  have hb := hw.packed_sparse b.1 _ (List.get?_eq_some.mpr ⟨b.2, rfl⟩)
  rw [hab] at ha
  rw [hb] at ha
  have : (b.1 : Int) = a.1 := (Option.some.injEq _ _).mp ha
  exact Fin.ext (by exact_mod_cast this.symm)

/-- Reads after allocating a fresh page (filled with -1) over a null
page pointer. -/
theorem read_alloc (s : SparsePages) (page : Nat) (hg : s.get? page = some none)
    (j : Nat) :
    sparseRead (s.set page (some (fun _ => (-1 : Int)))) j =
      if j / PAGE_SIZE = page then some (-1) else sparseRead s j := by
  by_cases hp : j / PAGE_SIZE = page
  · rw [if_pos hp]
    unfold sparseRead
    rw [hp, List.get?_set_eq, hg]
    rfl
  · rw [if_neg hp]
    unfold sparseRead
    rw [List.get?_set_ne _ _ (fun hh => hp hh.symm)]

/-- Assembly step for `Add` preservation: any page table whose reads agree
with the original except for the new entry's slot (pointed at the appended
position) and freshly allocated cells (-1) supports the invariant of the
extended pool. -/
theorem WF_add_assemble {p : Pool α} (hw : p.WF) {id : EntityID} {v : α}
    {s' : SparsePages} (hhas : p.Has id = false)
    (hA : sparseRead s' (GetEntityIndex id) = some (p.m_data.length : Int))
    (hB : ∀ j, j ≠ GetEntityIndex id →
      sparseRead s' j = sparseRead p.m_sparse j ∨
        (sparseRead p.m_sparse j = none ∧ sparseRead s' j = some (-1)))
    (hC : s'.length = p.m_sparse.length) :
    (Pool.mk (p.m_data ++ [v]) (p.m_packed ++ [id]) s').WF := by
  have hslot : ∀ pos id0, p.m_packed.get? pos = some id0 →
      GetEntityIndex id0 ≠ GetEntityIndex id := by
    intro pos id0 hget heq
    have : p.Has id = true := hw.has_iff.mpr ⟨pos, id0, hget, heq⟩
    rw [hhas] at this
    exact Bool.false_ne_true this
  constructor
  · simp [hw.len_eq]
  · rw [hC, hw.sparse_len]
  · intro pos id0 hget
    simp only
    rcases Nat.lt_trichotomy pos p.m_packed.length with hlt | heq | hgt
    · rw [List.get?_append hlt] at hget
      have hold := hw.packed_sparse _ _ hget
      rcases hB _ (hslot _ _ hget) with hsame | ⟨hnone, _⟩
      · rw [hsame]; exact hold
      · rw [hnone] at hold; exact absurd hold (by simp)
    · subst heq
      rw [List.get?_concat_length] at hget
      injection hget with hget
      subst hget
      rw [hA, hw.len_eq]
    · rw [List.get?_append_right (Nat.le_of_lt hgt)] at hget
      have : pos - p.m_packed.length ≠ 0 := by omega
      cases hn : pos - p.m_packed.length with
      | zero => exact absurd hn this
      | succ k => rw [hn] at hget; simp at hget
  · intro j w hr hne
    simp only at hr ⊢
    by_cases hj : j = GetEntityIndex id
    · subst hj
      rw [hA] at hr
      injection hr with hr
      subst hr
      refine ⟨id, by omega, ?_, rfl⟩
      have : (p.m_data.length : Int).toNat = p.m_packed.length := by
        rw [hw.len_eq]; simp
      rw [this, List.get?_concat_length]
    · rcases hB _ hj with hsame | ⟨_, hneg⟩
      · rw [hsame] at hr
        obtain ⟨id0, hge, hget, hidx⟩ := hw.sparse_packed _ _ hr hne
        have hlt : w.toNat < p.m_packed.length := by
          rcases List.get?_eq_some.mp hget with ⟨hlt, _⟩
          exact hlt
        exact ⟨id0, hge, by rw [List.get?_append hlt]; exact hget, hidx⟩
      · rw [hneg] at hr
        injection hr with hr
        exact absurd hr.symm hne

/-- `Pool::Add` on an absent id preserves the packing invariant and
appends the value and the id to the dense arrays. -/
theorem WF_Add {p : Pool α} (hw : p.WF) {id : EntityID} {v : α} {p' : Pool α}
    (hhas : p.Has id = false) (h : p.Add id v = some p') :
    p'.WF ∧ p'.m_data = p.m_data ++ [v] ∧ p'.m_packed = p.m_packed ++ [id] := by
  unfold Pool.Add at h
  by_cases hc : p.m_sparse.length ≤ GetEntityIndex id / PAGE_SIZE
  · rw [if_pos hc] at h
    by_cases hm : GetEntityIndex id < MAX_ENTITIES
    · exfalso
      have h1 : GetEntityIndex id / PAGE_SIZE ≤ MAX_ENTITIES / PAGE_SIZE :=
        Nat.div_le_div_right (Nat.le_of_lt hm)
      rw [hw.sparse_len] at hc
      omega
    · rw [if_neg hm] at h
      simp at h
  · rw [if_neg hc] at h
    simp only [Option.bind_eq_bind, Option.some_bind] at h
    have hWval : ((p.m_data ++ [v]).length : Int) - 1 = (p.m_data.length : Int) := by
      simp
    cases hg : p.m_sparse.get? (GetEntityIndex id / PAGE_SIZE) with
    | none =>
        exact absurd (List.get?_eq_none.mp hg) hc
    | some pg =>
        cases pg with
        | none =>
            rw [hg] at h
            simp only at h
            have hr1 : sparseRead
                (p.m_sparse.set (GetEntityIndex id / PAGE_SIZE)
                  (some (fun _ => (-1 : Int))))
                (GetEntityIndex id) = some (-1) := by
              rw [read_alloc _ _ hg]
              simp
            obtain ⟨s', hs'⟩ := sparseWrite_some_of_read hr1
              (((p.m_data ++ [v]).length : Int) - 1)
            rw [hs'] at h
            simp only [Option.some_bind, Option.some.injEq] at h
            subst h
            refine ⟨?_, rfl, rfl⟩
            apply WF_add_assemble hw hhas
            · rw [← hWval]
              exact sparseRead_write_self hs'
            · intro j hj
              rw [sparseRead_write_other hs' hj, read_alloc _ _ hg]
              by_cases hp : j / PAGE_SIZE = GetEntityIndex id / PAGE_SIZE
              · right
                constructor
                · unfold sparseRead
                  rw [hp, hg]
                · simp [hp]
              · left
                rw [if_neg hp]
            · rw [sparseWrite_length hs', List.length_set]
        | some f =>
            rw [hg] at h
            simp only at h
            have hr1 : sparseRead p.m_sparse (GetEntityIndex id) =
                some (f (GetEntityIndex id % PAGE_SIZE)) := by
              unfold sparseRead
              rw [hg]
            obtain ⟨s', hs'⟩ := sparseWrite_some_of_read hr1
              (((p.m_data ++ [v]).length : Int) - 1)
            rw [hs'] at h
            simp only [Option.some_bind, Option.some.injEq] at h
            subst h
            refine ⟨?_, rfl, rfl⟩
            apply WF_add_assemble hw hhas
            · rw [← hWval]
              exact sparseRead_write_self hs'
            · intro j hj
              left
              exact sparseRead_write_other hs' hj
            · exact sparseWrite_length hs'

theorem get?_dropLast {β : Type} (l : List β) {i : Nat} (h : i < l.length - 1) :
    l.dropLast.get? i = l.get? i := by
  rw [List.dropLast_eq_take, List.get?_take h]

theorem get?_set_self {β : Type} (l : List β) {i : Nat} (h : i < l.length)
    (a : β) : (l.set i a).get? i = some a := by
  rw [List.get?_set_eq]
  cases hg : l.get? i with
  | none => rw [List.get?_eq_none] at hg; omega
  | some b => simp

/-- `Pool::Remove` preserves the packing invariant. -/
theorem WF_Remove {p : Pool α} (hw : p.WF) {id : EntityID} {p' : Pool α}
    (h : p.Remove id = some p') : p'.WF := by
  by_cases hhas : p.Has id = false
  · rw [Remove_absent hhas] at h
    injection h with h
    subst h
    exact hw
  · have hhas' : p.Has id = true := by
      cases hb : p.Has id with
      | false => exact absurd hb hhas
      | true => rfl
    obtain ⟨r, hread, hrne⟩ := Has_true_iff.mp hhas'
    obtain ⟨id0, hge0, hget0, hidx0⟩ := hw.sparse_packed _ _ hread hrne
    have hrlt : r.toNat < p.m_packed.length := by
      rcases List.get?_eq_some.mp hget0 with ⟨hlt, _⟩
      exact hlt
    have hn : p.m_data.length = p.m_packed.length := hw.len_eq
    unfold Remove at h
    rw [if_neg (by rw [hhas']; simp)] at h
    simp only [Option.bind_eq_bind] at h
    rw [hread] at h
    simp only [Option.some_bind] at h
    by_cases hlast : r = (p.m_data.length : Int) - 1
    · -- the removed entry is the last dense entry: no swap
      rw [if_neg (by simp [hlast])] at h
      obtain ⟨s2, hs2⟩ := sparseWrite_some_of_read hread (-1)
      rw [hs2] at h
      simp only [Option.some_bind, Option.some.injEq] at h
      subst h
      have hrn : r.toNat = p.m_packed.length - 1 := by omega
      constructor
      · simp [hn]
      · rw [sparseWrite_length hs2, hw.sparse_len]
      · intro pos id1 hget
        simp only at hget ⊢
        have hpos : pos < p.m_packed.length - 1 := by
          rcases List.get?_eq_some.mp hget with ⟨hlt, _⟩
          simpa using hlt
        rw [get?_dropLast _ hpos] at hget
        have hold := hw.packed_sparse _ _ hget
        have hne : GetEntityIndex id1 ≠ GetEntityIndex id := by
          intro heq
          rw [heq] at hold
          rw [hold] at hread
          injection hread with hread
          omega
        rw [sparseRead_write_other hs2 hne]
        exact hold
      · intro j w hr hwne
        simp only at hr ⊢
        by_cases hj : j = GetEntityIndex id
        · subst hj
          rw [sparseRead_write_self hs2] at hr
          injection hr with hr
          exact absurd hr.symm hwne
        · rw [sparseRead_write_other hs2 hj] at hr
          obtain ⟨id1, hge1, hget1, hidx1⟩ := hw.sparse_packed _ _ hr hwne
          have hwlt : w.toNat < p.m_packed.length := by
            rcases List.get?_eq_some.mp hget1 with ⟨hlt, _⟩
            exact hlt
          have hwlt2 : w.toNat < p.m_packed.length - 1 := by
            rcases Nat.lt_or_ge w.toNat (p.m_packed.length - 1) with hh | hh
            · exact hh
            · exfalso
              have : w.toNat = r.toNat := by omega
              rw [this] at hget1
              rw [hget1] at hget0
              injection hget0 with hget0
              subst hget0
              exact hj (by rw [← hidx1, hidx0])
          exact ⟨id1, hge1, by rw [get?_dropLast _ hwlt2]; exact hget1, hidx1⟩
    · -- swap-with-last, then pop
      rw [if_pos (by simpa using hlast)] at h
      have hn1 : 0 < p.m_data.length := by omega
      have hIL : ((p.m_data.length : Int) - 1).toNat = p.m_packed.length - 1 := by
        omega
      rw [hIL] at h
      have hrn : r.toNat < p.m_packed.length - 1 := by omega
      obtain ⟨idL, hgetL⟩ : ∃ x, p.m_packed.get? (p.m_packed.length - 1) = some x := by
        cases hg : p.m_packed.get? (p.m_packed.length - 1) with
        | none => rw [List.get?_eq_none] at hg; omega
        | some x => exact ⟨x, rfl⟩
      obtain ⟨wL, hgetW⟩ : ∃ x, p.m_data.get? (p.m_packed.length - 1) = some x := by
        cases hg : p.m_data.get? (p.m_packed.length - 1) with
        | none => rw [List.get?_eq_none] at hg; omega
        | some x => exact ⟨x, rfl⟩
      have hreadL := hw.packed_sparse _ _ hgetL
      have hLne : GetEntityIndex idL ≠ GetEntityIndex id := by
        intro heq
        rw [heq] at hreadL
        rw [hreadL] at hread
        injection hread with hread
        omega
      rw [hgetL, hgetW] at h
      simp only [Option.some_bind] at h
      obtain ⟨s3, hs3⟩ := sparseWrite_some_of_read hreadL r
      rw [hs3] at h
      simp only [Option.some_bind] at h
      have hread3 : sparseRead s3 (GetEntityIndex id) = some r := by
        rw [sparseRead_write_other hs3 (fun hh => hLne hh.symm)]
        exact hread
      obtain ⟨s2, hs2⟩ := sparseWrite_some_of_read hread3 (-1)
      rw [hs2] at h
      simp only [Option.some_bind, Option.some.injEq] at h
      subst h
      have hsetlen : (p.m_packed.set r.toNat idL).length = p.m_packed.length := by
        simp
      constructor
      · simp [hn]
      · rw [sparseWrite_length hs2, sparseWrite_length hs3, hw.sparse_len]
      · intro pos id1 hget
        simp only at hget ⊢
        have hpos : pos < p.m_packed.length - 1 := by
          rcases List.get?_eq_some.mp hget with ⟨hlt, _⟩
          simpa using hlt
        rw [get?_dropLast _ (by simpa using hpos)] at hget
        by_cases hposr : pos = r.toNat
        · subst hposr
          rw [get?_set_self _ (by omega) _] at hget
          injection hget with hget
          subst hget
          rw [sparseRead_write_other hs2 hLne, sparseRead_write_self hs3]
          congr 1
          omega
        · rw [List.get?_set_ne _ _ (fun hh => hposr hh.symm)] at hget
          have hold := hw.packed_sparse _ _ hget
          have hne : GetEntityIndex id1 ≠ GetEntityIndex id := by
            intro heq
            rw [heq] at hold
            rw [hold] at hread
            injection hread with hread
            exact hposr (by omega)
          have hneL : GetEntityIndex id1 ≠ GetEntityIndex idL := by
            intro heq
            rw [heq] at hold
            rw [hold] at hreadL
            injection hreadL with hreadL
            omega
          rw [sparseRead_write_other hs2 hne, sparseRead_write_other hs3 hneL]
          exact hold
      · intro j w hr hwne
        simp only at hr ⊢
        by_cases hj : j = GetEntityIndex id
        · subst hj
          rw [sparseRead_write_self hs2] at hr
          injection hr with hr
          exact absurd hr.symm hwne
        · rw [sparseRead_write_other hs2 hj] at hr
          by_cases hjL : j = GetEntityIndex idL
          · subst hjL
            rw [sparseRead_write_self hs3] at hr
            injection hr with hr
            subst hr
            refine ⟨idL, hge0, ?_, rfl⟩
            rw [get?_dropLast _ (by simpa using hrn),
              get?_set_self _ (by omega) _]
          · rw [sparseRead_write_other hs3 hjL] at hr
            obtain ⟨id1, hge1, hget1, hidx1⟩ := hw.sparse_packed _ _ hr hwne
            have hwlt : w.toNat < p.m_packed.length := by
              rcases List.get?_eq_some.mp hget1 with ⟨hlt, _⟩
              exact hlt
            have hwr : w.toNat ≠ r.toNat := by
              intro heq
              rw [heq, hget0] at hget1
              injection hget1 with hget1
              subst hget1
              exact hj (by rw [← hidx1, hidx0])
            have hwL : w.toNat ≠ p.m_packed.length - 1 := by
              intro heq
              rw [heq, hgetL] at hget1
              injection hget1 with hget1
              subst hget1
              exact hjL (by rw [← hidx1])
            have hwlt2 : w.toNat < p.m_packed.length - 1 := by omega
            refine ⟨id1, hge1, ?_, hidx1⟩
            rw [get?_dropLast _ (by simpa using hwlt2),
              List.get?_set_ne _ _ (fun hh => hwr hh.symm)]
            exact hget1


/-- On a pool satisfying the packing invariant, `Pool::Remove` always
runs to completion: the early return handles absent ids, and for present
ids every unchecked read (the last packed entry, the moved value, the
sparse cells of the removed and the moved slot) is in range. -/
theorem Remove_isSome {p : Pool α} (hw : p.WF) (id : EntityID) :
    ∃ p', p.Remove id = some p' := by
  by_cases hhas : p.Has id = false
  · exact ⟨p, Remove_absent hhas⟩
  · have hhas' : p.Has id = true := by
      cases hb : p.Has id with
      | false => exact absurd hb hhas
      | true => rfl
    obtain ⟨r, hread, hrne⟩ := Has_true_iff.mp hhas'
    obtain ⟨id0, hge0, hget0, hidx0⟩ := hw.sparse_packed _ _ hread hrne
    have hrlt : r.toNat < p.m_packed.length := by
      rcases List.get?_eq_some.mp hget0 with ⟨hlt, _⟩
      exact hlt
    have hn : p.m_data.length = p.m_packed.length := hw.len_eq
    unfold Remove
    rw [if_neg (by rw [hhas']; simp)]
    simp only [Option.bind_eq_bind]
    rw [hread]
    simp only [Option.some_bind]
    by_cases hlast : r = (p.m_data.length : Int) - 1
    · rw [if_neg (by simp [hlast])]
      obtain ⟨s2, hs2⟩ := sparseWrite_some_of_read hread (-1)
      rw [hs2]
      exact ⟨_, rfl⟩
    · rw [if_pos (by simpa using hlast)]
      have hn1 : 0 < p.m_data.length := by omega
      have hIL : ((p.m_data.length : Int) - 1).toNat = p.m_packed.length - 1 := by
        omega
      rw [hIL]
      obtain ⟨idL, hgetL⟩ : ∃ x, p.m_packed.get? (p.m_packed.length - 1) = some x := by
        cases hg : p.m_packed.get? (p.m_packed.length - 1) with
        | none => rw [List.get?_eq_none] at hg; omega
        | some x => exact ⟨x, rfl⟩
      obtain ⟨wL, hgetW⟩ : ∃ x, p.m_data.get? (p.m_packed.length - 1) = some x := by
        cases hg : p.m_data.get? (p.m_packed.length - 1) with
        | none => rw [List.get?_eq_none] at hg; omega
        | some x => exact ⟨x, rfl⟩
      have hreadL := hw.packed_sparse _ _ hgetL
      have hLne : GetEntityIndex idL ≠ GetEntityIndex id := by
        intro heq
        rw [heq] at hreadL
        rw [hreadL] at hread
        injection hread with hread
        omega
      rw [hgetL, hgetW]
      simp only [Option.some_bind]
      obtain ⟨s3, hs3⟩ := sparseWrite_some_of_read hreadL r
      rw [hs3]
      simp only [Option.some_bind]
      have hread3 : sparseRead s3 (GetEntityIndex id) = some r := by
        rw [sparseRead_write_other hs3 (fun hh => hLne hh.symm)]
        exact hread
      obtain ⟨s2, hs2⟩ := sparseWrite_some_of_read hread3 (-1)
      rw [hs2]
      exact ⟨_, rfl⟩

theorem WF.roundTrip [DecidableEq α] {p : Pool α} (hw : p.WF) : p.RoundTrip := by
  intro id hid
  obtain ⟨pos, hget⟩ := List.mem_iff_get?.mp hid
  unfold entryOK
  rw [hw.packed_sparse _ _ hget]
  simp [← List.get?_eq_getElem?, hget]

end Pool


/-- Legal steps preserve the packing invariant. -/
theorem LegalSteps.wf {p p' : Pool α} {ops : List (PoolOp α)}
    (h : LegalSteps p ops p') (hw : p.WF) : p'.WF := by
  induction h with
  | nil => exact hw
  | add hhas hadd _ ih => exact ih (Pool.WF_Add hw hhas hadd).1
  | remove hrem _ ih => exact ih (Pool.WF_Remove hw hrem)

/-! ### Claim C2: pool packing invariant -/



/-- Claim C2 counterexample: after `Add 0` then `Add (generation 1, slot
0)` — a sequence of `Pool::Add` operations from the empty pool — the live
entry with id 0 (`Has 0` is true) fails the round trip
`dense_entity[sparse[slot(id)]] == id`: its sparse cell points at dense
position 1, which is owned by the other id. -/
theorem pool_packing_claim_counterexample :
    runOps Pool.new cexOps = some cexPool ∧ cexPool.Has 0 = true ∧
      (0 : EntityID) ∈ cexPool.m_packed ∧ ¬ Pool.RoundTrip cexPool := by
  refine ⟨rfl, rfl, by decide, ?_⟩
  intro hrt
  have h0 := hrt 0 (by decide)
  rw [show cexPool.entryOK 0 = false from rfl] at h0
  exact Bool.false_ne_true h0

/-- Claim C2 (amended): for every sequence of `Pool::Add` / `Pool::Remove`
operations from the empty pool in which `Add` is only invoked on ids the
pool does not already `Has` (so no duplicate and no slot-aliased adds —
the source's `Set` covers the present case), every live entry satisfies
the round trip `dense_entity[sparse[slot(id)]] == id`, the dense value and
entity arrays have equal length (and, as Lean lists, no gaps), and
`Remove` on an absent id is a no-op. -/
theorem pool_packing_invariant {α : Type} [DecidableEq α]
    (ops : List (PoolOp α)) (p' : Pool α) (h : LegalSteps Pool.new ops p') :
    Pool.RoundTrip p' ∧ p'.m_data.length = p'.m_packed.length ∧
      ∀ id, p'.Has id = false → p'.Remove id = some p' := by
  have hw := h.wf Pool.WF_new
  exact ⟨hw.roundTrip, hw.len_eq, fun id hh => Pool.Remove_absent hh⟩


/-- Witness for the amended packing invariant: the legal run
add 3, add 5, remove 3 reaches a pool on which the invariant's
conclusions evaluate as claimed. -/
theorem pool_packing_invariant_witness :
    Pool.entryOK witPool3 5 = true ∧
      witPool3.m_data.length = witPool3.m_packed.length ∧
      witPool3.Remove 0 = some witPool3 := by
  have hsteps : LegalSteps Pool.new
      [PoolOp.add 3 10, PoolOp.add 5 20, PoolOp.remove 3] witPool3 :=
    .add rfl rfl (.add rfl rfl (.remove rfl (.nil _)))
  have hmain := pool_packing_invariant _ _ hsteps
  refine ⟨?_, hmain.2.1, hmain.2.2 0 rfl⟩
  exact hmain.1 5 (by decide)

/-! ### Claim C3: view correctness -/

theorem Pool.WF.get_of_has {p : Pool Nat} (hw : p.WF) {id : EntityID}
    (h : p.Has id = true) : ∃ w, p.Get id = some w := by
  obtain ⟨v, hv, hne⟩ := Pool.Has_true_iff.mp h
  obtain ⟨id0, hge, hget, _⟩ := hw.sparse_packed _ _ hv hne
  have hlt : v.toNat < p.m_packed.length := by
    rcases List.get?_eq_some.mp hget with ⟨hlt, _⟩
    exact hlt
  obtain ⟨w, hwd⟩ : ∃ w, p.m_data.get? v.toNat = some w := by
    cases hd : p.m_data.get? v.toNat with
    | none =>
        rw [List.get?_eq_none] at hd
        have := hw.len_eq
        omega
    | some w => exact ⟨w, rfl⟩
  refine ⟨w, ?_⟩
  unfold Pool.Get
  rw [hv]
  simp only [Option.bind_eq_bind, Option.some_bind]
  rw [if_neg (by omega)]
  simpa [List.get?_eq_getElem?] using hwd

theorem Pool.WF.mem_of_has {p : Pool Nat} (hw : p.WF) {id : EntityID}
    (h : p.Has id = true) :
    ∃ id0 ∈ p.m_packed, GetEntityIndex id0 = GetEntityIndex id := by
  obtain ⟨pos, id0, hget, hidx⟩ := hw.has_iff.mp h
  exact ⟨id0, List.get?_mem hget, hidx⟩

theorem viewFn_eq_some {p1 p2 : Pool Nat} {x id : EntityID} {a b : Nat} :
    viewFn p1 p2 x = some (id, a, b) ↔
      x = id ∧ p1.Has x = true ∧ p2.Has x = true ∧
        p1.Get x = some a ∧ p2.Get x = some b := by
  unfold viewFn
  cases h1 : p1.Has x with
  | false => simp [h1]
  | true =>
      cases h2 : p2.Has x with
      | false => simp [h1, h2]
      | true =>
          simp only [h1, h2, Bool.and_self, if_true]
          cases hg1 : p1.Get x <;> cases hg2 : p2.Get x <;>
            simp [hg1, hg2, Prod.ext_iff]

theorem view_ids_aux (p1 p2 : Pool Nat) (hw1 : p1.WF) (hw2 : p2.WF)
    (l : List EntityID) (hl : ∀ id ∈ l, p1.Has id = true) :
    (l.filterMap (viewFn p1 p2)).map (fun t => t.1) =
      l.filter (fun id => p1.Has id && p2.Has id) := by
  induction l with
  | nil => rfl
  | cons x xs ih =>
      have hx := hl x (List.mem_cons_self x xs)
      have hxs : ∀ id ∈ xs, p1.Has id = true :=
        fun id hid => hl id (List.mem_cons_of_mem _ hid)
      rw [List.filterMap_cons, List.filter_cons]
      cases h2 : p2.Has x with
      | false =>
          have hv : viewFn p1 p2 x = none := by
            unfold viewFn
            rw [hx, h2]
            rfl
          rw [hv]
          simp [hx, h2, ih hxs]
      | true =>
          obtain ⟨w1, hg1⟩ := hw1.get_of_has hx
          obtain ⟨w2, hg2⟩ := hw2.get_of_has h2
          have hv : viewFn p1 p2 x = some (x, w1, w2) := by
            unfold viewFn
            rw [hx, h2, hg1, hg2]
            rfl
          rw [hv]
          simp [hx, h2, ih hxs]

theorem view_mem_iff {p1 p2 : Pool Nat} {l : List EntityID}
    {id : EntityID} {a b : Nat} :
    (id, a, b) ∈ l.filterMap (viewFn p1 p2) ↔
      id ∈ l ∧ p1.Has id = true ∧ p2.Has id = true ∧
        p1.Get id = some a ∧ p2.Get id = some b := by
  rw [List.mem_filterMap]
  constructor
  · rintro ⟨x, hx, hfx⟩
    obtain ⟨hxid, h1, h2, hg1, hg2⟩ := viewFn_eq_some.mp hfx
    subst hxid
    exact ⟨hx, h1, h2, hg1, hg2⟩
  · rintro ⟨hid, h1, h2, hg1, hg2⟩
    exact ⟨id, hid, viewFn_eq_some.mpr ⟨rfl, h1, h2, hg1, hg2⟩⟩

theorem Registry.viewList_eq {r : Registry} {c1 c2 : Nat} {p1 p2 : Pool Nat}
    (h1 : r.GetPool c1 = some p1) (h2 : r.GetPool c2 = some p2) :
    r.ViewList c1 c2 = p1.m_packed.filterMap (viewFn p1 p2) := by
  unfold Registry.ViewList
  rw [h1, h2]

/-- Claim C3 (amended): when every listed component kind's pool exists and
each pool is in its packed well-formed state with at most one dense entry
per slot (the state produced when components are attached only to entities
not already holding them — a double `AddComponent` duplicates dense
entries and makes the view fire once per duplicate), `View` invokes its
callback exactly once per entity possessing both kinds (count 1, count 0
when either is missing), and — when the two pools agree on the owner of
every shared slot — the set of invocations of `View<A,B>` equals that of
`View<B,A>` with the value arguments swapped; if any listed kind has no
pool, the view invokes the callback zero times. -/
theorem view_correctness (r : Registry) (c1 c2 : Nat) :
    ((r.GetPool c1 = none ∨ r.GetPool c2 = none) → r.ViewList c1 c2 = []) ∧
    ∀ p1 p2, r.GetPool c1 = some p1 → r.GetPool c2 = some p2 →
      p1.WF → p2.WF →
      ((r.ViewList c1 c2).map (fun t => t.1) =
          p1.m_packed.filter (fun id => p1.Has id && p2.Has id)) ∧
      (∀ id, ((r.ViewList c1 c2).map (fun t => t.1)).count id =
          if id ∈ p1.m_packed ∧ p2.Has id = true then 1 else 0) ∧
      (PoolsConsistent p1 p2 →
        ∀ id a b,
          ((id, a, b) ∈ r.ViewList c1 c2 ↔ (id, b, a) ∈ r.ViewList c2 c1)) := by
  constructor
  · intro hmiss
    unfold Registry.ViewList
    rcases hmiss with hm | hm
    · rw [hm]
    · rw [hm]
      rcases hx : r.GetPool c1 with _ | p <;> rfl
  · intro p1 p2 h1 h2 hw1 hw2
    have hVL := Registry.viewList_eq h1 h2
    have hids : (r.ViewList c1 c2).map (fun t => t.1) =
        p1.m_packed.filter (fun id => p1.Has id && p2.Has id) := by
      rw [hVL]
      exact view_ids_aux p1 p2 hw1 hw2 _ (fun id hid => hw1.has_of_mem hid)
    refine ⟨hids, ?_, ?_⟩
    · intro id
      rw [hids]
      by_cases hmem : id ∈ p1.m_packed
      · have hnd := hw1.packed_nodup.filter
          (fun id => p1.Has id && p2.Has id)
        by_cases hh2 : p2.Has id = true
        · have hf : id ∈ p1.m_packed.filter
              (fun id => p1.Has id && p2.Has id) :=
            List.mem_filter.mpr ⟨hmem, by rw [hw1.has_of_mem hmem, hh2]; rfl⟩
          rw [if_pos ⟨hmem, hh2⟩]
          exact List.count_eq_one_of_mem hnd hf
        · have hf : id ∉ p1.m_packed.filter
              (fun id => p1.Has id && p2.Has id) := by
            intro hmf
            rcases List.mem_filter.mp hmf with ⟨_, hpred⟩
            simp only [Bool.and_eq_true] at hpred
            exact hh2 hpred.2
          rw [if_neg (fun hc => hh2 hc.2)]
          exact List.count_eq_zero_of_not_mem hf
      · have hf : id ∉ p1.m_packed.filter
            (fun id => p1.Has id && p2.Has id) :=
          fun hmf => hmem ((List.filter_sublist _).subset hmf)
        rw [if_neg (fun hc => hmem hc.1)]
        exact List.count_eq_zero_of_not_mem hf
    · intro hcons id a b
      have hVL' := Registry.viewList_eq h2 h1
      rw [hVL, hVL', view_mem_iff, view_mem_iff]
      constructor
      · rintro ⟨hid1, hh1, hh2, hg1, hg2⟩
        refine ⟨?_, hh2, hh1, hg2, hg1⟩
        obtain ⟨id0, hid0, hslot⟩ := hw2.mem_of_has hh2
        have heq : id = id0 := hcons id hid1 id0 hid0 hslot.symm
        rw [heq]
        exact hid0
      · rintro ⟨hid2, hh2, hh1, hg2, hg1⟩
        refine ⟨?_, hh1, hh2, hg1, hg2⟩
        obtain ⟨id0, hid0, hslot⟩ := hw1.mem_of_has hh1
        have heq : id0 = id := hcons id0 hid0 id hid2 hslot
        rw [← heq]
        exact hid0

/-- Claim C3 counterexample: from a fresh registry, create one entity and
call `AddComponent` for kind 0 twice (values 10 then 11) and kind 1 once —
a plain API call sequence. The entity possesses both kinds
(`HasComponent` is true for both), yet `View<0,1>` invokes its callback
twice for it, so "exactly once per entity possessing both" fails on this
registry state; the flipped `View<1,0>` fires once, so the invocation
multisets also differ between the two declared orders. -/
theorem view_exactly_once_counterexample :
    (((Registry.new.CreateEntity).2.AddComponent 0 0 10).bind
        (fun r => r.AddComponent 0 0 11) |>.bind
        (fun r => r.AddComponent 1 0 20)) = some rViewDup ∧
      rViewDup.HasComponent 0 0 = some true ∧
      rViewDup.HasComponent 1 0 = some true ∧
      ((rViewDup.ViewList 0 1).map (fun t => t.1)).count 0 = 2 ∧
      ((rViewDup.ViewList 1 0).map (fun t => t.1)).count 0 = 1 :=
  ⟨rfl, rfl, rfl, rfl, rfl⟩

/-- Witness for the amended view-correctness theorem at a registry whose
two well-formed pools each hold entity 0 once. -/
theorem view_correctness_witness :
    ((rViewW.ViewList 0 1).map (fun t => t.1)).count 0 = 1 ∧
      ((0, 10, 20) ∈ rViewW.ViewList 0 1 ↔ (0, 20, 10) ∈ rViewW.ViewList 1 0) := by
  have haddA : Pool.new.Add 0 10 = some vwPoolA := rfl
  have haddB : Pool.new.Add 0 20 = some vwPoolB := rfl
  have hhas0 : (Pool.new : Pool Nat).Has 0 = false := rfl
  have hwA : vwPoolA.WF := (Pool.WF_Add Pool.WF_new hhas0 haddA).1
  have hwB : vwPoolB.WF := (Pool.WF_Add Pool.WF_new hhas0 haddB).1
  have hmain := (view_correctness rViewW 0 1).2 vwPoolA vwPoolB rfl rfl hwA hwB
  constructor
  · rw [hmain.2.1 0, if_pos (by decide)]
  · exact hmain.2.2 (by unfold PoolsConsistent; decide) 0 10 20

/-! ### Claim C1: component add/has/get contract -/

/-- Claim C1 evaluated on the code. For the generation-0 handle the
contract holds: after `AddComponent`, `HasComponent` is true and
`GetComponent` returns the value; after `RemoveComponent`, `HasComponent`
is false. But on a recycled handle (slot 0, generation 1, full id 2^32)
`AddComponent` and `HasComponent` index `m_entityComponentSignatures`
(size 1) by the full 64-bit id and hit the out-of-bounds vector access
(`none`, undefined behavior in the source) — the contract cannot hold for
handles whose slot was recycled. -/
theorem component_contract_breaks_on_recycled_handle :
    ((Registry.new.CreateEntity).1 = 0 ∧
      rOne.AddComponent 0 0 42 = some rAfterAdd ∧
      rAfterAdd.HasComponent 0 0 = some true ∧
      rAfterAdd.GetComponent 0 0 = some 42 ∧
      rAfterAdd.RemoveComponent 0 0 = some rAfterRemove ∧
      rAfterRemove.HasComponent 0 0 = some false) ∧
    ((rOne.KillEntity 0).Update = some rRecycledBase ∧
      eRecycled = 2 ^ 32 ∧
      rRecycled.m_entityComponentSignatures.length = 1 ∧
      rRecycled.AddComponent 0 eRecycled 42 = none ∧
      rRecycled.HasComponent 0 eRecycled = none) :=
  ⟨⟨rfl, rfl, rfl, rfl, rfl, rfl⟩, rfl, rfl, rfl, rfl, rfl⟩

/-! ### Claim C5: capacity bound assertion -/

/-- Claim C5 evaluated on the code: `Pool::Add` at slot MAX_ENTITIES
(1000000) and at slot 1003519 silently succeeds — their page (244) lies
inside the 245-page table preallocated by the constructor, so the
assertion in the resize branch is never evaluated; the assert/abort is
first reached at slot 1003520 = (MAX_ENTITIES / PAGE_SIZE + 1) *
PAGE_SIZE, the first slot past the page table. -/
theorem pool_capacity_assert_gap :
    (Pool.new.Add 999999 (42 : Nat)).isSome = true ∧
      (Pool.new.Add 1000000 (42 : Nat)).isSome = true ∧
      (Pool.new.Add 1003519 (42 : Nat)).isSome = true ∧
      Pool.new.Add 1003520 (42 : Nat) = none :=
  ⟨rfl, rfl, rfl, rfl⟩

/-! ### Claim C6: component mutation does not touch system membership -/

/-- Claim C6: `AddComponent` and `RemoveComponent` leave every system's
cached entity list (and required signature) unchanged, for every registry
state and entity — membership is recomputed only when the pending-create
set is flushed by `Update` and torn down at destruction. -/
theorem component_ops_leave_systems (r : Registry) (cid : Nat)
    (e : EntityID) (v : Nat) :
    (∀ r', r.AddComponent cid e v = some r' → r'.m_systems = r.m_systems) ∧
    (∀ r', r.RemoveComponent cid e = some r' → r'.m_systems = r.m_systems) := by
  constructor
  · intro r' h
    unfold Registry.AddComponent at h
    simp only [Option.bind_eq_bind] at h
    rcases Option.bind_eq_some.mp h with ⟨pool1, _, h2⟩
    cases hsig : r.m_entityComponentSignatures.get? e with
    | none => rw [hsig] at h2; exact absurd h2 (by simp)
    | some sig =>
        rw [hsig] at h2
        injection h2 with h2
        subst h2
        rfl
  · intro r' h
    unfold Registry.RemoveComponent at h
    simp only [Option.bind_eq_bind] at h
    cases hpool : r.m_componentPools.get? cid with
    | none =>
        rw [hpool] at h
        simp at h
    | some op =>
        cases op with
        | none =>
            rw [hpool] at h
            simp at h
        | some pool0 =>
            rw [hpool] at h
            simp only [Option.some_bind] at h
            rcases Option.bind_eq_some.mp h with ⟨pool1, _, h2⟩
            cases hsig : r.m_entityComponentSignatures.get? e with
            | none => rw [hsig] at h2; exact absurd h2 (by simp)
            | some sig =>
                rw [hsig] at h2
                injection h2 with h2
                subst h2
                rfl

/-- Witness: on a concrete registry with one visible entity, adding and
then removing a component leaves the (empty) system table untouched. -/
theorem component_ops_leave_systems_witness :
    rAfterAdd.m_systems = rOne.m_systems ∧
      rAfterRemove.m_systems = rAfterAdd.m_systems :=
  ⟨(component_ops_leave_systems rOne 0 0 42).1 rAfterAdd rfl,
   (component_ops_leave_systems rAfterAdd 0 0 42).2 rAfterRemove rfl⟩

/-! ### Claim C8: KillEntity on an invalid handle is a no-op -/

/-- Claim C8: on an invalid handle (generation mismatch or slot past the
version table) `KillEntity` returns with the registry bit-for-bit
unchanged, pending-destroy set included; on a valid handle it only
inserts the id into the pending-destroy set. -/
theorem kill_invalid_noop (r : Registry) (e : EntityID) :
    (r.IsValid e = false → r.KillEntity e = r) ∧
    (r.IsValid e = true →
      r.KillEntity e =
        { r with m_entitiesToBeKilled := setInsert e r.m_entitiesToBeKilled }) := by
  constructor
  · intro h
    simp [Registry.KillEntity, h]
  · intro h
    simp [Registry.KillEntity, h]

/-- Witness: in the registry holding pending entity 0 (generation 0),
killing the stale handle of generation 1 changes nothing, and killing the
valid handle 0 only enqueues it. -/
theorem kill_invalid_noop_witness :
    rOne.KillEntity (2 ^ 32) = rOne ∧
      rOne.KillEntity 0 =
        { rOne with m_entitiesToBeKilled := setInsert 0 rOne.m_entitiesToBeKilled } :=
  ⟨(kill_invalid_noop rOne (2 ^ 32)).1 rfl, (kill_invalid_noop rOne 0).2 rfl⟩

/-! ### Claim C9: killing twice before Update equals killing once -/

theorem setInsert_idem (x : Nat) (l : List Nat) :
    setInsert x (setInsert x l) = setInsert x l := by
  induction l with
  | nil => simp [setInsert]
  | cons y ys ih =>
      by_cases hlt : x < y
      · simp [setInsert, hlt]
      · by_cases heq : x = y
        · simp [setInsert, hlt, heq]
        · simp [setInsert, hlt, heq, ih]

/-- Claim C9: `KillEntity` is idempotent before the next `Update` — the
`std::set` pending-destroy set collapses duplicate handles, so a second
(or any further) `KillEntity` with the same handle leaves the registry
state identical, and the subsequent `Update` (one generation bump, one
free-list push) is therefore also identical. -/
theorem kill_idempotent (r : Registry) (e : EntityID) :
    (r.KillEntity e).KillEntity e = r.KillEntity e ∧
      ((r.KillEntity e).KillEntity e).Update = (r.KillEntity e).Update := by
  have h1 : (r.KillEntity e).KillEntity e = r.KillEntity e := by
    cases hv : r.IsValid e with
    | false =>
        have hnoop : r.KillEntity e = r := by simp [Registry.KillEntity, hv]
        rw [hnoop, hnoop]
    | true =>
        have hstep : r.KillEntity e =
            { r with m_entitiesToBeKilled := setInsert e r.m_entitiesToBeKilled } := by
          simp [Registry.KillEntity, hv]
        have hv2 : (r.KillEntity e).IsValid e = true := by
          rw [hstep]
          exact hv
        rw [hstep] at hv2 ⊢
        simp [Registry.KillEntity, hv2, setInsert_idem]
  exact ⟨h1, by rw [h1]⟩

/-! ### Claim C10: the not-found tag sentinel collides with the first handle -/

/-- Claim C10: for a tag hash with no entry (never assigned, or erased),
`GetEntityByTag` returns `Entity(0, nullptr)`; the first handle a fresh
registry issues is slot 0 generation 0, whose full id is also 0, and
`Entity::operator==` compares only ids, so the sentinel is
indistinguishable by `==` from that live handle. -/
theorem tag_not_found_sentinel (r : Registry) (hash : Nat)
    (h : mapFind r.m_tagToEntity hash = none) :
    r.GetEntityByTag hash = ⟨0, false⟩ ∧
      (Registry.new.CreateEntity).1 = 0 ∧
      entityEq ⟨0, false⟩ ⟨(Registry.new.CreateEntity).1, true⟩ = true := by
  refine ⟨?_, rfl, rfl⟩
  unfold Registry.GetEntityByTag
  rw [h]

/-- Witness: the fresh registry maps no tag, so looking up hash 7 yields
the sentinel, which `operator==`-equals the first issued handle. -/
theorem tag_not_found_sentinel_witness :
    Registry.new.GetEntityByTag 7 = ⟨0, false⟩ ∧
      entityEq ⟨0, false⟩ ⟨(Registry.new.CreateEntity).1, true⟩ = true :=
  ⟨(tag_not_found_sentinel Registry.new 7 rfl).1,
   (tag_not_found_sentinel Registry.new 7 rfl).2.2⟩

/-! ### Claim C7: tag exclusivity and re-tagging -/

theorem mapFind_cons (p : Nat × EntityID) (m : List (Nat × EntityID)) (k : Nat) :
    mapFind (p :: m) k = if p.1 == k then some p.2 else mapFind m k := by
  cases h : (p.1 == k) <;> simp [mapFind, List.find?_cons, h]

theorem mapFind_insert_self (m : List (Nat × EntityID)) (k : Nat)
    (v : EntityID) : mapFind (mapInsert m k v) k = some v := by
  induction m with
  | nil => simp [mapInsert, mapFind_cons, mapFind]
  | cons p m ih =>
      by_cases hp : p.1 = k
      · simp [mapInsert, hp, mapFind_cons]
      · simp only [mapInsert, if_neg hp]
        rw [mapFind_cons, if_neg (by simpa using hp), ih]

theorem mapFind_insert_other (m : List (Nat × EntityID)) (k k' : Nat)
    (v : EntityID) (h : k' ≠ k) :
    mapFind (mapInsert m k v) k' = mapFind m k' := by
  induction m with
  | nil =>
      simp only [mapInsert]
      rw [mapFind_cons, if_neg (by simpa using Ne.symm h)]
  | cons p m ih =>
      by_cases hp : p.1 = k
      · simp only [mapInsert, if_pos hp]
        rw [mapFind_cons, mapFind_cons, if_neg (by simpa using (Ne.symm h)),
          if_neg (by simp [hp]; exact fun hh => h hh.symm)]
      · simp only [mapInsert, if_neg hp]
        rw [mapFind_cons, mapFind_cons, ih]

theorem tagEntity_tags_get (r : Registry) (e : EntityID) (h : Nat) :
    (r.TagEntity e h).m_entityToTag.get? (GetEntityIndex e) = some h ∧
      GetEntityIndex e < (r.TagEntity e h).m_entityToTag.length := by
  unfold Registry.TagEntity
  simp only
  by_cases hl : r.m_entityToTag.length ≤ GetEntityIndex e
  · rw [if_pos hl]
    refine ⟨Pool.get?_set_self _ (by simp; omega) _, by simp; omega⟩
  · rw [if_neg hl]
    refine ⟨Pool.get?_set_self _ (by omega) _, by simp; omega⟩

/-- Claim C7 (amended): after `TagEntity(e, a)` then `TagEntity(e, b)`
with distinct tag hashes, the entity's stored tag is b —
`EntityHasTag(e, b)` is true and `EntityHasTag(e, a)` is false — and
`GetEntityByTag(b)` resolves to e; but `GetEntityByTag(a)` ALSO still
resolves to e, because `TagEntity` overwrites only the slot→hash entry
and never erases the previous hash's entry in `m_tagToEntity`; the stale
forward entry persists until `RemoveEntityTag` or entity destruction. -/
theorem retag_overwrites (r : Registry) (e : EntityID) (ha hb : Nat)
    (hne : ha ≠ hb) :
    ((r.TagEntity e ha).TagEntity e hb).EntityHasTag e hb = true ∧
      ((r.TagEntity e ha).TagEntity e hb).EntityHasTag e ha = false ∧
      ((r.TagEntity e ha).TagEntity e hb).GetEntityByTag hb = ⟨e, true⟩ ∧
      ((r.TagEntity e ha).TagEntity e hb).GetEntityByTag ha = ⟨e, true⟩ := by
  obtain ⟨hget2, _⟩ := tagEntity_tags_get (r.TagEntity e ha) e hb
  have hmap2 : ((r.TagEntity e ha).TagEntity e hb).m_tagToEntity =
      mapInsert (mapInsert r.m_tagToEntity ha e) hb e := rfl
  refine ⟨?_, ?_, ?_, ?_⟩
  · unfold Registry.EntityHasTag
    rw [hget2]
    simp
  · unfold Registry.EntityHasTag
    rw [hget2]
    simp
    exact Ne.symm hne
  · unfold Registry.GetEntityByTag
    rw [hmap2, mapFind_insert_self]
  · unfold Registry.GetEntityByTag
    rw [hmap2, mapFind_insert_other _ _ _ _ hne, mapFind_insert_self]

/-- Claim C7 counterexample: entity 0 is tagged with hash 1 and re-tagged
with hash 2; `EntityHasTag` reflects the overwrite, yet `GetEntityByTag`
on the OLD tag hash still returns entity 0's handle (which
`operator==`-equals the entity), contradicting "the tag lookup no longer
resolves to e". -/
theorem retag_stale_lookup_counterexample :
    rTagged.EntityHasTag 0 2 = true ∧ rTagged.EntityHasTag 0 1 = false ∧
      rTagged.GetEntityByTag 1 = ⟨0, true⟩ ∧
      entityEq (rTagged.GetEntityByTag 1) ⟨0, true⟩ = true :=
  ⟨rfl, rfl, rfl, rfl⟩

/-- Witness for the amended re-tagging theorem at the concrete doubly
tagged registry. -/
theorem retag_overwrites_witness :
    rTagged.EntityHasTag 0 2 = true ∧ rTagged.EntityHasTag 0 1 = false ∧
      rTagged.GetEntityByTag 2 = ⟨0, true⟩ := by
  have h := retag_overwrites rOne 0 1 2 (by decide)
  exact ⟨h.1, h.2.1, h.2.2.1⟩

/-! ### Claim C4: slot recycling with generation bump -/

theorem getIndex_createId {i v : Nat} (hi : i < 2 ^ 32) :
    GetEntityIndex (CreateEntityId i v) = i := by
  unfold GetEntityIndex CreateEntityId
  omega

theorem getVersion_createId {i v : Nat} (hi : i < 2 ^ 32) (hv : v < 2 ^ 32) :
    GetEntityVersion (CreateEntityId i v) = v := by
  unfold GetEntityVersion CreateEntityId
  omega

theorem createId_ne {i v w : Nat} (hv : v < 2 ^ 32) (hw : w < 2 ^ 32)
    (hne : v ≠ w) : CreateEntityId i v ≠ CreateEntityId i w := by
  have h : (v * 2 ^ 32 + i % 2 ^ 32 : Nat) ≠ w * 2 ^ 32 + i % 2 ^ 32 := by
    omega
  unfold CreateEntityId
  rw [Nat.mod_eq_of_lt hv, Nat.mod_eq_of_lt hw]
  exact h

/-- `AddEntityToSystems` modifies only the system table. -/
theorem addEntityToSystems_fields {r r' : Registry} {e : EntityID}
    (h : r.AddEntityToSystems e = some r') :
    r' = { r with m_systems := r'.m_systems } := by
  unfold Registry.AddEntityToSystems at h
  cases hg : r.m_entityComponentSignatures.get? (GetEntityIndex e) with
  | none => rw [hg] at h; exact absurd h (by simp)
  | some s =>
      rw [hg] at h
      injection h with h
      rw [← h]

/-- `RemoveEntityTag` modifies only the two tag tables. -/
theorem removeEntityTag_keeps (r : Registry) (e : EntityID) :
    (r.RemoveEntityTag e).m_entityVersions = r.m_entityVersions ∧
      (r.RemoveEntityTag e).m_freeIndices = r.m_freeIndices ∧
      (r.RemoveEntityTag e).m_systems = r.m_systems ∧
      (r.RemoveEntityTag e).m_entitiesToBeAdded = r.m_entitiesToBeAdded ∧
      (r.RemoveEntityTag e).m_entitiesToBeKilled = r.m_entitiesToBeKilled ∧
      (r.RemoveEntityTag e).m_componentPools = r.m_componentPools ∧
      (r.RemoveEntityTag e).m_entityComponentSignatures =
        r.m_entityComponentSignatures ∧
      (r.RemoveEntityTag e).m_numEntities = r.m_numEntities := by
  simp only [Registry.RemoveEntityTag]
  cases hget : r.m_entityToTag.get? (GetEntityIndex e) with
  | none => simp
  | some hash =>
      by_cases hh : hash ≠ 0 <;> simp [hh]

theorem removeEntityTag_versions (r : Registry) (e : EntityID) :
    (r.RemoveEntityTag e).m_entityVersions = r.m_entityVersions :=
  (removeEntityTag_keeps r e).1

theorem removeEntityTag_free (r : Registry) (e : EntityID) :
    (r.RemoveEntityTag e).m_freeIndices = r.m_freeIndices :=
  (removeEntityTag_keeps r e).2.1

/-- The per-pool purge of the pending-destroy step runs to completion on
every pool vector whose allocated pools satisfy the packing invariant
(null entries are skipped by the loop's null check). -/
theorem poolsRemove_mapM_isSome (pools : List (Option (Pool Nat)))
    (e : EntityID)
    (hwf : ∀ op ∈ pools, ∀ p, op = some p → p.WF) :
    ∃ pools', pools.mapM (fun op =>
        match op with
        | none => some none
        | some p => (p.Remove e).map some) = some pools' := by
  induction pools with
  | nil => exact ⟨[], rfl⟩
  | cons op rest ih =>
      obtain ⟨rest', hrest⟩ :=
        ih (fun op h p hp => hwf op (List.mem_cons_of_mem _ h) p hp)
      cases op with
      | none =>
          refine ⟨none :: rest', ?_⟩
          rw [List.mapM_cons]
          simp only
          rw [hrest]
          rfl
      | some p =>
          obtain ⟨p', hp'⟩ :=
            Pool.Remove_isSome (hwf _ (List.mem_cons_self _ _) p rfl) e
          refine ⟨some p' :: rest', ?_⟩
          rw [List.mapM_cons]
          simp only [hp']
          rw [hrest]
          rfl

/-- The free-list after the pending-destroy step: the slot is pushed onto
the back. -/
theorem processKill_free (R : Registry) (e : EntityID)
    (hval : R.IsValid e = true)
    (hsig : (R.m_entityComponentSignatures.get? (GetEntityIndex e)).isSome = true)
    (hwf : ∀ op ∈ R.m_componentPools, ∀ p, op = some p → p.WF)
    (hver : (R.m_entityVersions.get? (GetEntityIndex e)).isSome = true) :
    (R.processKill e).bind (fun a => some a.m_freeIndices) =
      some (R.m_freeIndices ++ [GetEntityIndex e]) := by
  obtain ⟨s, hs⟩ := Option.isSome_iff_exists.mp hsig
  obtain ⟨w, hw⟩ := Option.isSome_iff_exists.mp hver
  obtain ⟨pools', hpools'⟩ := poolsRemove_mapM_isSome R.m_componentPools e hwf
  simp only [Registry.processKill, hval, Registry.RemoveEntityFromSystems,
    Option.bind_eq_bind, Option.some_bind, hs, hpools',
    removeEntityTag_versions, removeEntityTag_free, hw]
  simp

/-- The version table after the pending-destroy step: the slot's u32
generation is incremented (with wraparound). -/
theorem processKill_versions (R : Registry) (e : EntityID)
    (hval : R.IsValid e = true)
    (hsig : (R.m_entityComponentSignatures.get? (GetEntityIndex e)).isSome = true)
    (hwf : ∀ op ∈ R.m_componentPools, ∀ p, op = some p → p.WF)
    (hver : (R.m_entityVersions.get? (GetEntityIndex e)).isSome = true) :
    (R.processKill e).bind (fun a => some a.m_entityVersions) =
      some (R.m_entityVersions.set (GetEntityIndex e)
        (((R.m_entityVersions.get? (GetEntityIndex e)).getD 0 + 1) % 2 ^ 32)) := by
  obtain ⟨s, hs⟩ := Option.isSome_iff_exists.mp hsig
  obtain ⟨w, hw⟩ := Option.isSome_iff_exists.mp hver
  obtain ⟨pools', hpools'⟩ := poolsRemove_mapM_isSome R.m_componentPools e hwf
  simp only [Registry.processKill, hval, Registry.RemoveEntityFromSystems,
    Option.bind_eq_bind, Option.some_bind, hs, hpools',
    removeEntityTag_versions, removeEntityTag_free, hw]
  simp

/-- Claim C4 (amended): from a quiescent registry (empty pending sets,
every allocated component pool in its packed well-formed state — true of
every pool the registry builds, including pools holding components of the
entity being recycled) whose free-list holds exactly the slot i at u32
generation v,
create–kill–synchronize–create yields a handle on the same slot i whose
generation is `(v + 1) % 2^32`: the full identifier always differs and
`IsValid` on the old handle is false, and the generation strictly
increases whenever `v < 2^32 - 1` — at `v = 2^32 - 1` the u32 counter
wraps to zero instead of increasing. -/
theorem slot_recycling (r : Registry) (i v : Nat)
    (hfree : r.m_freeIndices = [i])
    (hi32 : i < 2 ^ 32)
    (hadded : r.m_entitiesToBeAdded = [])
    (hkilled : r.m_entitiesToBeKilled = [])
    (hwfp : ∀ op ∈ r.m_componentPools, ∀ p, op = some p → p.WF)
    (hv : r.m_entityVersions.get? i = some v)
    (hv32 : v < 2 ^ 32)
    (hsg : ∃ sg, r.m_entityComponentSignatures.get? i = some sg) :
    ∃ r3,
      ((r.CreateEntity).2.KillEntity (r.CreateEntity).1).Update = some r3 ∧
      (r.CreateEntity).1 = CreateEntityId i v ∧
      GetEntityIndex (r3.CreateEntity).1 = GetEntityIndex (r.CreateEntity).1 ∧
      GetEntityVersion (r.CreateEntity).1 = v ∧
      GetEntityVersion (r3.CreateEntity).1 = (v + 1) % 2 ^ 32 ∧
      (r3.CreateEntity).1 ≠ (r.CreateEntity).1 ∧
      r3.IsValid (r.CreateEntity).1 = false ∧
      ((r3.CreateEntity).2).IsValid (r.CreateEntity).1 = false ∧
      (v < 2 ^ 32 - 1 →
        GetEntityVersion (r.CreateEntity).1 < GetEntityVersion (r3.CreateEntity).1) := by
  obtain ⟨sg, hsg⟩ := hsg
  have hgi := getIndex_createId (i := i) (v := v) hi32
  have hgv := getVersion_createId (i := i) (v := v) hi32 hv32
  have hilen : i < r.m_entityVersions.length := by
    rcases List.get?_eq_some.mp hv with ⟨hlt, _⟩
    exact hlt
  have hvElem : r.m_entityVersions[i]? = some v := by
    rw [← List.get?_eq_getElem?]
    exact hv
  have hgetD : r.m_entityVersions.getD i 0 = v := by
    rw [List.getD_eq_get?, hv]
    rfl
  -- Step 1: CreateEntity pops the free-list front.
  have hcreate : r.CreateEntity =
      (CreateEntityId i v,
        { r with m_freeIndices := [],
                 m_entitiesToBeAdded := [CreateEntityId i v] }) := by
    unfold Registry.CreateEntity
    rw [hfree]
    simp [hgetD, hvElem, hadded, setInsert]
  -- Step 2: KillEntity enqueues the (valid) handle.
  have hkill : ((r.CreateEntity).2).KillEntity (r.CreateEntity).1 =
      { r with m_freeIndices := [],
               m_entitiesToBeAdded := [CreateEntityId i v],
               m_entitiesToBeKilled := [CreateEntityId i v] } := by
    rw [hcreate]
    simp [Registry.KillEntity, Registry.IsValid, hgi, hgv, hvElem, hkilled,
      setInsert]
  -- Step 3: Update flushes the pending sets.
  have hU : (({ r with m_freeIndices := [],
                       m_entitiesToBeAdded := [CreateEntityId i v],
                       m_entitiesToBeKilled := [CreateEntityId i v] } :
          Registry)).Update.map Registry.m_freeIndices = some [i] := by
    simp only [Registry.Update, Registry.AddEntityToSystems,
      List.foldlM_cons, List.foldlM_nil, Option.bind_eq_bind,
      Option.some_bind, Option.pure_def, Option.bind_some, Option.bind_assoc,
      Function.comp, hgi, hgv, hsg, hv, hvElem, Option.map_eq_bind]
    rw [processKill_free _ _ (by simp [Registry.IsValid, hgi, hvElem, hgv])
      (by simp [← List.get?_eq_getElem?, hgi, hsg])
      (by exact hwfp) (by simp [← List.get?_eq_getElem?, hgi, hv])]
    simp [hgi]
  have hV : (({ r with m_freeIndices := [],
                       m_entitiesToBeAdded := [CreateEntityId i v],
                       m_entitiesToBeKilled := [CreateEntityId i v] } :
          Registry)).Update.map Registry.m_entityVersions =
      some (r.m_entityVersions.set i ((v + 1) % 2 ^ 32)) := by
    simp only [Registry.Update, Registry.AddEntityToSystems,
      List.foldlM_cons, List.foldlM_nil, Option.bind_eq_bind,
      Option.some_bind, Option.pure_def, Option.bind_some, Option.bind_assoc,
      Function.comp, hgi, hgv, hsg, hv, hvElem, Option.map_eq_bind]
    rw [processKill_versions _ _ (by simp [Registry.IsValid, hgi, hvElem, hgv])
      (by simp [← List.get?_eq_getElem?, hgi, hsg])
      (by exact hwfp) (by simp [← List.get?_eq_getElem?, hgi, hv])]
    simp [hgi, ← List.get?_eq_getElem?, hv]
  obtain ⟨r3, hupd⟩ :
      ∃ x, (({ r with m_freeIndices := [],
                      m_entitiesToBeAdded := [CreateEntityId i v],
                      m_entitiesToBeKilled := [CreateEntityId i v] } :
          Registry)).Update = some x := by
    cases husome : (({ r with m_freeIndices := [],
                              m_entitiesToBeAdded := [CreateEntityId i v],
                              m_entitiesToBeKilled := [CreateEntityId i v] } :
          Registry)).Update with
    | none => rw [husome] at hU; exact absurd hU (by simp)
    | some x => exact ⟨x, rfl⟩
  rw [hupd] at hU hV
  have hfree3 : r3.m_freeIndices = [i] := by simpa using hU
  have hver3 : r3.m_entityVersions =
      r.m_entityVersions.set i ((v + 1) % 2 ^ 32) := by simpa using hV
  -- Step 4: facts about the registry after synchronize.
  have hv3 : r3.m_entityVersions.get? i = some ((v + 1) % 2 ^ 32) := by
    rw [hver3]
    exact Pool.get?_set_self _ hilen _
  have hv3Elem : r3.m_entityVersions[i]? = some ((v + 1) % 2 ^ 32) := by
    rw [← List.get?_eq_getElem?]
    exact hv3
  have hgetD3 : r3.m_entityVersions.getD i 0 = (v + 1) % 2 ^ 32 := by
    rw [List.getD_eq_get?, hv3]
    rfl
  have hm32 : (v + 1) % 2 ^ 32 < 2 ^ 32 := Nat.mod_lt _ (by norm_num)
  have hmne : (v + 1) % 2 ^ 32 ≠ v := by omega
  have hgi3 := getIndex_createId (i := i) (v := (v + 1) % 2 ^ 32) hi32
  have hgv3 := getVersion_createId (i := i) (v := (v + 1) % 2 ^ 32) hi32 hm32
  have hcreate3 : r3.CreateEntity =
      (CreateEntityId i ((v + 1) % 2 ^ 32),
        { r3 with m_freeIndices := [],
                  m_entitiesToBeAdded :=
                    setInsert (CreateEntityId i ((v + 1) % 2 ^ 32))
                      r3.m_entitiesToBeAdded }) := by
    unfold Registry.CreateEntity
    rw [hfree3]
    simp [hgetD3, hv3Elem]
  refine ⟨r3, ?_, ?_, ?_, ?_, ?_, ?_, ?_, ?_, ?_⟩
  · rw [hkill]
    exact hupd
  · rw [hcreate]
  · rw [hcreate3, hcreate]
    show GetEntityIndex (CreateEntityId i ((v + 1) % 2 ^ 32)) =
      GetEntityIndex (CreateEntityId i v)
    rw [getIndex_createId hi32, getIndex_createId hi32]
  · rw [hcreate]
    exact hgv
  · rw [hcreate3]
    exact hgv3
  · rw [hcreate3, hcreate]
    simp only
    exact createId_ne hm32 hv32 hmne
  · rw [hcreate]
    simp only [Registry.IsValid, hgi, hv3]
    simp [hgv]
    omega
  · rw [hcreate3, hcreate]
    simp only [Registry.IsValid, hgi, hv3]
    simp [hgv]
    omega
  · intro hlt
    rw [hcreate, hcreate3]
    show GetEntityVersion (CreateEntityId i v) <
      GetEntityVersion (CreateEntityId i ((v + 1) % 2 ^ 32))
    rw [hgv, hgv3]
    omega

/-- Claim C4 counterexample: in the (reachable) registry whose slot 0
carries the maximum u32 generation 4294967295 on the free-list, the
create–kill–synchronize–create cycle recycles slot 0 but the u32
generation counter wraps to 0: the full identifier still differs and
`IsValid` on the old handle is still false, yet the generation does NOT
strictly increase as the claim states. -/
theorem generation_wrap_counterexample :
    (rWrap.CreateEntity).1 = CreateEntityId 0 (2 ^ 32 - 1) ∧
      ((rWrap.CreateEntity).2.KillEntity (rWrap.CreateEntity).1).Update =
        some rWrapSynced ∧
      GetEntityIndex (rWrapSynced.CreateEntity).1 =
        GetEntityIndex (rWrap.CreateEntity).1 ∧
      (rWrapSynced.CreateEntity).1 = 0 ∧
      (rWrapSynced.CreateEntity).1 ≠ (rWrap.CreateEntity).1 ∧
      rWrapSynced.IsValid (rWrap.CreateEntity).1 = false ∧
      GetEntityVersion (rWrap.CreateEntity).1 = 2 ^ 32 - 1 ∧
      GetEntityVersion (rWrapSynced.CreateEntity).1 = 0 ∧
      ¬ GetEntityVersion (rWrap.CreateEntity).1 <
          GetEntityVersion (rWrapSynced.CreateEntity).1 := by
  exact ⟨rfl, rfl, rfl, rfl, by decide, rfl, rfl, rfl, by decide⟩

/-- Witness for the amended recycling theorem: the quiescent registry with
one free slot of generation 5 — and a well-formed component pool still
holding an entry on that slot, so the synchronize step exercises the
pool-purge path — recycles the slot at generation 6. -/
theorem slot_recycling_witness :
    ∃ r3,
      ((rGenPool.CreateEntity).2.KillEntity (rGenPool.CreateEntity).1).Update =
        some r3 ∧
      (rGenPool.CreateEntity).1 = CreateEntityId 0 5 ∧
      GetEntityIndex (r3.CreateEntity).1 =
        GetEntityIndex (rGenPool.CreateEntity).1 ∧
      GetEntityVersion (rGenPool.CreateEntity).1 = 5 ∧
      GetEntityVersion (r3.CreateEntity).1 = (5 + 1) % 2 ^ 32 ∧
      (r3.CreateEntity).1 ≠ (rGenPool.CreateEntity).1 ∧
      r3.IsValid (rGenPool.CreateEntity).1 = false ∧
      ((r3.CreateEntity).2).IsValid (rGenPool.CreateEntity).1 = false ∧
      (5 < 2 ^ 32 - 1 →
        GetEntityVersion (rGenPool.CreateEntity).1 <
          GetEntityVersion (r3.CreateEntity).1) :=
  slot_recycling rGenPool 0 5 rfl (by decide) rfl rfl
    (by
      intro op hop p hp
      have hopA : op = some vwPoolA := by simpa [rGenPool] using hop
      rw [hopA] at hp
      injection hp with hp
      have haddA : Pool.new.Add 0 10 = some vwPoolA := rfl
      have hhas0 : (Pool.new : Pool Nat).Has 0 = false := rfl
      rw [← hp]
      exact (Pool.WF_Add Pool.WF_new hhas0 haddA).1)
    rfl (by decide) ⟨0, rfl⟩

end ECS
